import Mathlib

/-!
Verification of the music-station repository against its specification.

This file shallowly embeds the parts of the code that the claims C1..C10
are about:

* the custom DES / Triple-DES codec from `music-search-rs/src/qqmusic/decrypt.rs`
  (claims C2, C3);
* the MD5-based track-id derivation and the scan filter from `src/library.rs`
  (claims C1, C4, C8);
* the lyric format handling from `src/lyrics.rs` and the lyrics upload handler
  from `src/server.rs` (claims C5, C10);
* the HTTP byte-range parser and range response from `src/server.rs` (claim C6);
* the playlist track table operations from `src/playlist.rs` (claim C7);
* the confidence scoring of the remote lyrics providers from
  `src/lyrics/music_search_provider.rs` (claim C9).

Machine integers are modelled as `Nat` with explicit truncation `% 2 ^ 32`
exactly where the Rust code can drop bits; `f32` values are modelled as
exact dyadic rationals rounded to 24 significant bits, ties to even.
-/

set_option maxRecDepth 100000

/-! ## Generic single-bit scatter/gather

The DES permutation code builds 32-bit words (and bytes) as `|`-chains of
single-bit terms `((x >>> s) &&& 1) <<< c`.  We represent such a chain as a
fold over the list of its `(source bit, target bit)` pairs, in the order the
source writes them; `a ||| (b ||| (c ||| 0))` equals the source's
left-associated `a | b | c` because `|||` is associative with unit `0`.
-/

def gatherBits (src : Nat → Bool) : List (Nat × Nat) → Nat
  | [] => 0
  | p :: rest => ((cond (src p.1) 1 0) <<< p.2) ||| gatherBits src rest

theorem testBit_one_iff (m : Nat) : Nat.testBit 1 m = decide (m = 0) := by
  cases m with
  | zero => rfl
  | succ n =>
    have h : 1 < 2 ^ (n + 1) := Nat.one_lt_two_pow (by omega)
    simp [Nat.testBit_lt_two_pow h]

theorem shiftRight_and_one (x s : Nat) :
    (x >>> s) &&& 1 = cond (x.testBit s) 1 0 := by
  have h := Nat.and_one_is_mod (x >>> s)
  have ht : x.testBit s = decide ((x >>> s) % 2 = 1) := by
    rw [Nat.testBit_to_div_mod, Nat.shiftRight_eq_div_pow]
  rcases Nat.mod_two_eq_zero_or_one (x >>> s) with h2 | h2 <;>
    simp [h, h2, ht]

theorem single_bit_testBit (b : Bool) (c j : Nat) :
    ((cond b 1 0) <<< c).testBit j = (decide (c = j) && b) := by
  rw [Nat.testBit_shiftLeft]
  cases b with
  | false =>
    simp [Nat.zero_shiftLeft]
  | true =>
    by_cases h : c = j
    · subst h
      simp [testBit_one_iff]
    · by_cases h2 : j ≥ c
      · have : j - c ≠ 0 := by omega
        simp [testBit_one_iff, h, h2, this]
      · simp [h, h2]

theorem gatherBits_testBit (src : Nat → Bool) (L : List (Nat × Nat)) (j : Nat) :
    (gatherBits src L).testBit j = L.any (fun p => decide (p.2 = j) && src p.1) := by
  induction L with
  | nil => simp [gatherBits]
  | cons p rest ih =>
    rw [gatherBits, Nat.testBit_lor, single_bit_testBit, ih, List.any_cons]

theorem lor_lt_two_pow {x y n : Nat} (hx : x < 2 ^ n) (hy : y < 2 ^ n) :
    x ||| y < 2 ^ n :=
  Nat.bitwise_lt_two_pow hx hy

theorem gatherBits_lt (src : Nat → Bool) (L : List (Nat × Nat)) (n : Nat)
    (h : ∀ p ∈ L, p.2 < n) : gatherBits src L < 2 ^ n := by
  induction L with
  | nil => simp [gatherBits]
  | cons p rest ih =>
    have hp : p.2 < n := h p (by simp)
    have h1 : (cond (src p.1) 1 0) <<< p.2 < 2 ^ n := by
      have hc : (cond (src p.1) 1 0) ≤ 1 := by cases src p.1 <;> simp
      calc (cond (src p.1) 1 0) <<< p.2 = (cond (src p.1) 1 0) * 2 ^ p.2 :=
            Nat.shiftLeft_eq _ _
        _ ≤ 1 * 2 ^ p.2 := Nat.mul_le_mul_right _ hc
        _ = 2 ^ p.2 := Nat.one_mul _
        _ < 2 ^ n := Nat.pow_lt_pow_right (by omega) hp
    exact lor_lt_two_pow h1 (ih (fun q hq => h q (by simp [hq])))

theorem testBit_eq_false_of_lt_of_le {x n j : Nat} (h : x < 2 ^ n) (hj : n ≤ j) :
    x.testBit j = false :=
  Nat.testBit_lt_two_pow
    (Nat.lt_of_lt_of_le h (Nat.pow_le_pow_right (by omega) hj))

/-! ## Custom DES / Triple-DES codec

Embeds `music-search-rs/src/qqmusic/decrypt.rs`.  Byte slices are `List Nat`
(each element a byte value), 32-bit words are `Nat` (always `< 2 ^ 32`), and
a 16-round key schedule is a `List` of sixteen 6-byte subkeys.
-/

def ENCRYPT : Nat := 1

def DECRYPT : Nat := 0

/-- The fixed 24-byte QQ Music lyric key (decrypt.rs line 5). -/
def QQ_KEY : List Nat := "!@#)(*$%123ZXC!@!@#)(NHL".data.map Char.toNat

/-- decrypt.rs `bitnum`: bit `b` (MSB-first, byte-swapped word layout) of the
byte slice `a`, shifted to position `c`. -/
def bitnum (a : List Nat) (b c : Nat) : Nat :=
  ((a.getD (b / 32 * 4 + 3 - b % 32 / 8) 0 >>> (7 - b % 8)) &&& 0x01) <<< c

/-- decrypt.rs `bitnumintr`: bit `31 - b` of the 32-bit word `a`, shifted to
position `c` (the result fits a byte since `c ≤ 7` at every call site). -/
def bitnumintr (a : Nat) (b c : Nat) : Nat :=
  ((a >>> (31 - b)) &&& 0x00000001) <<< c

/-- decrypt.rs `bitnumintl`: bit `31 - b` of the 32-bit word `a`, moved to
position `31 - c`.  The `% 2 ^ 32` models the u32 left shift discarding
overflowing bits. -/
def bitnumintl (a : Nat) (b c : Nat) : Nat :=
  (((a <<< b) % 2 ^ 32) &&& 0x80000000) >>> c

/-- decrypt.rs `sboxbit`. -/
def sboxbit (a : Nat) : Nat :=
  (a &&& 0x20) ||| ((a &&& 0x1f) >>> 1) ||| ((a &&& 0x01) <<< 4)

def SBOX1 : List Nat :=
  [14, 4, 13, 1, 2, 15, 11, 8, 3, 10, 6, 12, 5, 9, 0, 7,
   0, 15, 7, 4, 14, 2, 13, 1, 10, 6, 12, 11, 9, 5, 3, 8,
   4, 1, 14, 8, 13, 6, 2, 11, 15, 12, 9, 7, 3, 10, 5, 0,
   15, 12, 8, 2, 4, 9, 1, 7, 5, 11, 3, 14, 10, 0, 6, 13]

def SBOX2 : List Nat :=
  [15, 1, 8, 14, 6, 11, 3, 4, 9, 7, 2, 13, 12, 0, 5, 10,
   3, 13, 4, 7, 15, 2, 8, 15, 12, 0, 1, 10, 6, 9, 11, 5,
   0, 14, 7, 11, 10, 4, 13, 1, 5, 8, 12, 6, 9, 3, 2, 15,
   13, 8, 10, 1, 3, 15, 4, 2, 11, 6, 7, 12, 0, 5, 14, 9]

def SBOX3 : List Nat :=
  [10, 0, 9, 14, 6, 3, 15, 5, 1, 13, 12, 7, 11, 4, 2, 8,
   13, 7, 0, 9, 3, 4, 6, 10, 2, 8, 5, 14, 12, 11, 15, 1,
   13, 6, 4, 9, 8, 15, 3, 0, 11, 1, 2, 12, 5, 10, 14, 7,
   1, 10, 13, 0, 6, 9, 8, 7, 4, 15, 14, 3, 11, 5, 2, 12]

def SBOX4 : List Nat :=
  [7, 13, 14, 3, 0, 6, 9, 10, 1, 2, 8, 5, 11, 12, 4, 15,
   13, 8, 11, 5, 6, 15, 0, 3, 4, 7, 2, 12, 1, 10, 14, 9,
   10, 6, 9, 0, 12, 11, 7, 13, 15, 1, 3, 14, 5, 2, 8, 4,
   3, 15, 0, 6, 10, 10, 13, 8, 9, 4, 5, 11, 12, 7, 2, 14]

def SBOX5 : List Nat :=
  [2, 12, 4, 1, 7, 10, 11, 6, 8, 5, 3, 15, 13, 0, 14, 9,
   14, 11, 2, 12, 4, 7, 13, 1, 5, 0, 15, 10, 3, 9, 8, 6,
   4, 2, 1, 11, 10, 13, 7, 8, 15, 9, 12, 5, 6, 3, 0, 14,
   11, 8, 12, 7, 1, 14, 2, 13, 6, 15, 0, 9, 10, 4, 5, 3]

def SBOX6 : List Nat :=
  [12, 1, 10, 15, 9, 2, 6, 8, 0, 13, 3, 4, 14, 7, 5, 11,
   10, 15, 4, 2, 7, 12, 9, 5, 6, 1, 13, 14, 0, 11, 3, 8,
   9, 14, 15, 5, 2, 8, 12, 3, 7, 0, 4, 10, 1, 13, 11, 6,
   4, 3, 2, 12, 9, 5, 15, 10, 11, 14, 1, 7, 6, 0, 8, 13]

def SBOX7 : List Nat :=
  [4, 11, 2, 14, 15, 0, 8, 13, 3, 12, 9, 7, 5, 10, 6, 1,
   13, 0, 11, 7, 4, 9, 1, 10, 14, 3, 5, 12, 2, 15, 8, 6,
   1, 4, 11, 13, 12, 3, 7, 14, 10, 15, 6, 8, 0, 5, 9, 2,
   6, 11, 13, 8, 1, 4, 10, 7, 9, 5, 0, 15, 14, 2, 3, 12]

def SBOX8 : List Nat :=
  [13, 2, 8, 4, 6, 15, 11, 1, 10, 9, 3, 14, 5, 0, 12, 7,
   1, 15, 13, 8, 10, 3, 7, 4, 12, 5, 6, 11, 0, 14, 9, 2,
   7, 11, 4, 1, 9, 12, 14, 2, 0, 6, 10, 13, 15, 3, 5, 8,
   2, 1, 14, 7, 4, 10, 8, 13, 15, 12, 9, 0, 3, 5, 6, 11]

def key_rnd_shift : List Nat := [1, 1, 2, 2, 2, 2, 2, 2, 1, 2, 2, 2, 2, 2, 2, 1]

def key_perm_c : List Nat :=
  [56, 48, 40, 32, 24, 16, 8, 0, 57, 49, 41, 33, 25, 17,
   9, 1, 58, 50, 42, 34, 26, 18, 10, 2, 59, 51, 43, 35]

def key_perm_d : List Nat :=
  [62, 54, 46, 38, 30, 22, 14, 6, 61, 53, 45, 37, 29, 21,
   13, 5, 60, 52, 44, 36, 28, 20, 12, 4, 27, 19, 11, 3]

def key_compression : List Nat :=
  [13, 16, 10, 23, 0, 4, 2, 27, 14, 5, 20, 9,
   22, 18, 11, 3, 25, 7, 15, 6, 26, 19, 12, 1,
   40, 51, 30, 36, 46, 54, 29, 39, 50, 44, 32, 47,
   43, 48, 38, 55, 33, 52, 45, 41, 49, 35, 28, 31]

/-- One 6-byte subkey, built by the two `|=` loops over `j in 0..24` and
`j in 24..48` in `key_schedule`. -/
def subkey (c d : Nat) : List Nat :=
  (List.range 48).foldl
    (fun acc j =>
      let bit :=
        if j < 24 then bitnumintr c (key_compression.getD j 0) (7 - j % 8)
        else bitnumintr d (key_compression.getD j 0 - 27) (7 - j % 8)
      acc.set (j / 8) (acc.getD (j / 8) 0 ||| bit))
    [0, 0, 0, 0, 0, 0]

/-- The 28-bit halves rotation of `key_schedule`:
`((c << shift) | (c >> (28 - shift))) & 0xfffffff0` on u32. -/
def rot28 (x s : Nat) : Nat :=
  (((x <<< s) % 2 ^ 32) ||| (x >>> (28 - s))) &&& 0xfffffff0

/-- The `for i in 0..16` loop of `key_schedule`, producing the subkeys in
round order `i = 0, …, 15`. -/
def ksLoop : List Nat → Nat → Nat → List (List Nat)
  | [], _, _ => []
  | s :: rest, c, d =>
    subkey (rot28 c s) (rot28 d s) :: ksLoop rest (rot28 c s) (rot28 d s)

/-- The initial `c` of `key_schedule`: `c |= bitnum(key, key_perm_c[i], 31 - i)`
for `i in 0..28`. -/
def keyPermInitC (key : List Nat) : Nat :=
  (List.range 28).foldl (fun c i => c ||| bitnum key (key_perm_c.getD i 0) (31 - i)) 0

/-- The initial `d` of `key_schedule`. -/
def keyPermInitD (key : List Nat) : Nat :=
  (List.range 28).foldl (fun d i => d ||| bitnum key (key_perm_d.getD i 0) (31 - i)) 0

/-- decrypt.rs `key_schedule`.  In `ENCRYPT` mode subkey `i` is written to
slot `i`; in `DECRYPT` mode it is written to slot `15 - i`, which reverses
the list. -/
def key_schedule (key : List Nat) (mode : Nat) : List (List Nat) :=
  if mode = DECRYPT then (ksLoop key_rnd_shift (keyPermInitC key) (keyPermInitD key)).reverse
  else ksLoop key_rnd_shift (keyPermInitC key) (keyPermInitD key)

/-- The `(source bit of the input block, target bit of state[0])` pairs of the
initial permutation `ip`, in source order: `state[0] = bitnum(input,57,31) |
bitnum(input,49,30) | …`. -/
def ip_upper_bits : List (Nat × Nat) :=
  [(57, 31), (49, 30), (41, 29), (33, 28), (25, 27), (17, 26), (9, 25), (1, 24),
   (59, 23), (51, 22), (43, 21), (35, 20), (27, 19), (19, 18), (11, 17), (3, 16),
   (61, 15), (53, 14), (45, 13), (37, 12), (29, 11), (21, 10), (13, 9), (5, 8),
   (63, 7), (55, 6), (47, 5), (39, 4), (31, 3), (23, 2), (15, 1), (7, 0)]

/-- The pairs of `ip` for `state[1]`. -/
def ip_lower_bits : List (Nat × Nat) :=
  [(56, 31), (48, 30), (40, 29), (32, 28), (24, 27), (16, 26), (8, 25), (0, 24),
   (58, 23), (50, 22), (42, 21), (34, 20), (26, 19), (18, 18), (10, 17), (2, 16),
   (60, 15), (52, 14), (44, 13), (36, 12), (28, 11), (20, 10), (12, 9), (4, 8),
   (62, 7), (54, 6), (46, 5), (38, 4), (30, 3), (22, 2), (14, 1), (6, 0)]

/-- The bit of a byte slice that `bitnum a b _` extracts. -/
def inBit (a : List Nat) (b : Nat) : Bool :=
  (a.getD (b / 32 * 4 + 3 - b % 32 / 8) 0).testBit (7 - b % 8)

theorem bitnum_eq_single_bit (a : List Nat) (b c : Nat) :
    bitnum a b c = (cond (inBit a b) 1 0) <<< c := by
  rw [bitnum, inBit, shiftRight_and_one]

/-- decrypt.rs `ip`: the initial permutation, producing `(state[0], state[1])`. -/
def ip (input : List Nat) : Nat × Nat :=
  (gatherBits (inBit input) ip_upper_bits, gatherBits (inBit input) ip_lower_bits)

/-- The bit of the state pair that `bitnumintr (state[i]) b _` extracts,
with the source word and bit encoded as `32 * i + b`. -/
def stBit (st : Nat × Nat) (t : Nat) : Bool :=
  (if t < 32 then st.1 else st.2).testBit (31 - t % 32)

theorem bitnumintr_eq_single_bit (x b c : Nat) :
    bitnumintr x b c = (cond (x.testBit (31 - b)) 1 0) <<< c := by
  rw [bitnumintr, shiftRight_and_one]

/-- `inv_ip` terms for `output[0]`: `bitnumintr(state[1],4,7) |
bitnumintr(state[0],4,6) | …`, each pair `(32 * i + b, c)`. -/
def invip_byte0 : List (Nat × Nat) :=
  [(32 * 1 + 4, 7), (32 * 0 + 4, 6), (32 * 1 + 12, 5), (32 * 0 + 12, 4),
   (32 * 1 + 20, 3), (32 * 0 + 20, 2), (32 * 1 + 28, 1), (32 * 0 + 28, 0)]

def invip_byte1 : List (Nat × Nat) :=
  [(32 * 1 + 5, 7), (32 * 0 + 5, 6), (32 * 1 + 13, 5), (32 * 0 + 13, 4),
   (32 * 1 + 21, 3), (32 * 0 + 21, 2), (32 * 1 + 29, 1), (32 * 0 + 29, 0)]

def invip_byte2 : List (Nat × Nat) :=
  [(32 * 1 + 6, 7), (32 * 0 + 6, 6), (32 * 1 + 14, 5), (32 * 0 + 14, 4),
   (32 * 1 + 22, 3), (32 * 0 + 22, 2), (32 * 1 + 30, 1), (32 * 0 + 30, 0)]

def invip_byte3 : List (Nat × Nat) :=
  [(32 * 1 + 7, 7), (32 * 0 + 7, 6), (32 * 1 + 15, 5), (32 * 0 + 15, 4),
   (32 * 1 + 23, 3), (32 * 0 + 23, 2), (32 * 1 + 31, 1), (32 * 0 + 31, 0)]

def invip_byte4 : List (Nat × Nat) :=
  [(32 * 1 + 0, 7), (32 * 0 + 0, 6), (32 * 1 + 8, 5), (32 * 0 + 8, 4),
   (32 * 1 + 16, 3), (32 * 0 + 16, 2), (32 * 1 + 24, 1), (32 * 0 + 24, 0)]

def invip_byte5 : List (Nat × Nat) :=
  [(32 * 1 + 1, 7), (32 * 0 + 1, 6), (32 * 1 + 9, 5), (32 * 0 + 9, 4),
   (32 * 1 + 17, 3), (32 * 0 + 17, 2), (32 * 1 + 25, 1), (32 * 0 + 25, 0)]

def invip_byte6 : List (Nat × Nat) :=
  [(32 * 1 + 2, 7), (32 * 0 + 2, 6), (32 * 1 + 10, 5), (32 * 0 + 10, 4),
   (32 * 1 + 18, 3), (32 * 0 + 18, 2), (32 * 1 + 26, 1), (32 * 0 + 26, 0)]

def invip_byte7 : List (Nat × Nat) :=
  [(32 * 1 + 3, 7), (32 * 0 + 3, 6), (32 * 1 + 11, 5), (32 * 0 + 11, 4),
   (32 * 1 + 19, 3), (32 * 0 + 19, 2), (32 * 1 + 27, 1), (32 * 0 + 27, 0)]

/-- decrypt.rs `inv_ip`: the final permutation, producing the eight output
bytes in index order `output[0], …, output[7]`. -/
def inv_ip (st : Nat × Nat) : List Nat :=
  [gatherBits (stBit st) invip_byte0, gatherBits (stBit st) invip_byte1,
   gatherBits (stBit st) invip_byte2, gatherBits (stBit st) invip_byte3,
   gatherBits (stBit st) invip_byte4, gatherBits (stBit st) invip_byte5,
   gatherBits (stBit st) invip_byte6, gatherBits (stBit st) invip_byte7]

/-- The `t1` expansion word of `des_f`.  The `% 2 ^ 32` on the left shifts
models u32 truncation (no bits are in fact lost there). -/
def des_f_t1 (state : Nat) : Nat :=
  bitnumintl state 31 0 ||| ((state &&& 0xf0000000) >>> 1) |||
    bitnumintl state 4 5 ||| bitnumintl state 3 6 |||
    ((state &&& 0x0f000000) >>> 3) ||| bitnumintl state 8 11 |||
    bitnumintl state 7 12 ||| ((state &&& 0x00f00000) >>> 5) |||
    bitnumintl state 12 17 ||| bitnumintl state 11 18 |||
    ((state &&& 0x000f0000) >>> 7) ||| bitnumintl state 16 23

/-- The `t2` expansion word of `des_f`. -/
def des_f_t2 (state : Nat) : Nat :=
  bitnumintl state 15 0 ||| (((state &&& 0x0000f000) <<< 15) % 2 ^ 32) |||
    bitnumintl state 20 5 ||| bitnumintl state 19 6 |||
    (((state &&& 0x00000f00) <<< 13) % 2 ^ 32) ||| bitnumintl state 24 11 |||
    bitnumintl state 23 12 ||| (((state &&& 0x000000f0) <<< 11) % 2 ^ 32) |||
    bitnumintl state 28 17 ||| bitnumintl state 27 18 |||
    (((state &&& 0x0000000f) <<< 9) % 2 ^ 32) ||| bitnumintl state 0 23

/-- `lrgstate[i]` of `des_f` after the subkey XOR. -/
def des_f_lrg (state : Nat) (key : List Nat) (i : Nat) : Nat :=
  if i < 3 then ((des_f_t1 state >>> (24 - 8 * i)) &&& 0x000000ff) ^^^ key.getD i 0
  else ((des_f_t2 state >>> (24 - 8 * (i - 3))) &&& 0x000000ff) ^^^ key.getD i 0

/-- The S-box output word of `des_f`. -/
def des_f_sbox (state : Nat) (key : List Nat) : Nat :=
  ((SBOX1.getD (sboxbit (des_f_lrg state key 0 >>> 2)) 0) <<< 28) |||
    ((SBOX2.getD (sboxbit (((des_f_lrg state key 0 &&& 0x03) <<< 4) |||
      (des_f_lrg state key 1 >>> 4))) 0) <<< 24) |||
    ((SBOX3.getD (sboxbit (((des_f_lrg state key 1 &&& 0x0f) <<< 2) |||
      (des_f_lrg state key 2 >>> 6))) 0) <<< 20) |||
    ((SBOX4.getD (sboxbit (des_f_lrg state key 2 &&& 0x3f)) 0) <<< 16) |||
    ((SBOX5.getD (sboxbit (des_f_lrg state key 3 >>> 2)) 0) <<< 12) |||
    ((SBOX6.getD (sboxbit (((des_f_lrg state key 3 &&& 0x03) <<< 4) |||
      (des_f_lrg state key 4 >>> 4))) 0) <<< 8) |||
    ((SBOX7.getD (sboxbit (((des_f_lrg state key 4 &&& 0x0f) <<< 2) |||
      (des_f_lrg state key 5 >>> 6))) 0) <<< 4) |||
    (SBOX8.getD (sboxbit (des_f_lrg state key 5 &&& 0x3f)) 0)

/-- decrypt.rs `des_f`: expansion, subkey XOR, the eight S-boxes, and the P
permutation applied to the S-box word. -/
def des_f (state : Nat) (key : List Nat) : Nat :=
  let sb := des_f_sbox state key
  bitnumintl sb 15 0 ||| bitnumintl sb 6 1 ||| bitnumintl sb 19 2 |||
    bitnumintl sb 20 3 ||| bitnumintl sb 28 4 ||| bitnumintl sb 11 5 |||
    bitnumintl sb 27 6 ||| bitnumintl sb 16 7 ||| bitnumintl sb 0 8 |||
    bitnumintl sb 14 9 ||| bitnumintl sb 22 10 ||| bitnumintl sb 25 11 |||
    bitnumintl sb 4 12 ||| bitnumintl sb 17 13 ||| bitnumintl sb 30 14 |||
    bitnumintl sb 9 15 ||| bitnumintl sb 1 16 ||| bitnumintl sb 7 17 |||
    bitnumintl sb 23 18 ||| bitnumintl sb 13 19 ||| bitnumintl sb 31 20 |||
    bitnumintl sb 26 21 ||| bitnumintl sb 2 22 ||| bitnumintl sb 8 23 |||
    bitnumintl sb 18 24 ||| bitnumintl sb 12 25 ||| bitnumintl sb 29 26 |||
    bitnumintl sb 5 27 ||| bitnumintl sb 21 28 ||| bitnumintl sb 10 29 |||
    bitnumintl sb 3 30 ||| bitnumintl sb 24 31

/-- The 16 Feistel rounds of `des_crypt`: rounds `0..15` swap the halves
(`t = state[1]; state[1] = f(state[1]) ^ state[0]; state[0] = t`); the last
round keeps them (`state[0] = f(state[1]) ^ state[0]`). -/
def desRounds : List (List Nat) → Nat × Nat → Nat × Nat
  | [], st => st
  | [k], st => (des_f st.2 k ^^^ st.1, st.2)
  | k :: k' :: ks, st => desRounds (k' :: ks) (st.2, des_f st.2 k ^^^ st.1)

/-- decrypt.rs `des_crypt`. -/
def des_crypt (keys : List (List Nat)) (input : List Nat) : List Nat :=
  inv_ip (desRounds keys (ip input))

/-- decrypt.rs `triple_des_key_setup`: in `ENCRYPT` mode the slots are
`[E(K1), D(K2), E(K3)]`; in `DECRYPT` mode slot 2 gets `D(K1)`, slot 1 gets
`E(K2)` and slot 0 gets `D(K3)`. -/
def triple_des_key_setup (key : List Nat) (mode : Nat) : List (List (List Nat)) :=
  if mode = ENCRYPT then
    [key_schedule (key.take 8) mode,
     key_schedule ((key.drop 8).take 8) DECRYPT,
     key_schedule ((key.drop 16).take 8) mode]
  else
    [key_schedule ((key.drop 16).take 8) mode,
     key_schedule ((key.drop 8).take 8) ENCRYPT,
     key_schedule (key.take 8) mode]

/-- decrypt.rs `triple_des_crypt`: three sequential `des_crypt` passes with
schedules 0, 1, 2. -/
def triple_des_crypt (sched : List (List (List Nat))) (input : List Nat) : List Nat :=
  des_crypt (sched.getD 2 []) (des_crypt (sched.getD 1 []) (des_crypt (sched.getD 0 []) input))

/-- Claim C2: with the 24-byte key `"!@#)(*$%123ZXC!@!@#)(NHL"` and the
single 8-byte ciphertext block `00 36 7F E8 E5 05 42 AB`, one application of
the custom Triple-DES decrypt (key schedule prepared in decrypt mode, then
`triple_des_crypt` on the block) produces exactly the plaintext bytes
`78 9C 45 58 DB 6E 55 D7`. -/
theorem c2_qq_tdes_decrypts_first_block :
    triple_des_crypt (triple_des_key_setup QQ_KEY DECRYPT)
      [0x00, 0x36, 0x7F, 0xE8, 0xE5, 0x05, 0x42, 0xAB] =
      [0x78, 0x9C, 0x45, 0x58, 0xDB, 0x6E, 0x55, 0xD7] := by
  have h0 : des_crypt ((triple_des_key_setup QQ_KEY DECRYPT).getD 0 [])
      [0x00, 0x36, 0x7F, 0xE8, 0xE5, 0x05, 0x42, 0xAB] =
      [0x79, 0x31, 0xC7, 0xD9, 0xB2, 0xEE, 0x3B, 0xC2] := by decide
  have h1 : des_crypt ((triple_des_key_setup QQ_KEY DECRYPT).getD 1 [])
      [0x79, 0x31, 0xC7, 0xD9, 0xB2, 0xEE, 0x3B, 0xC2] =
      [0x0C, 0x8E, 0xA2, 0x5C, 0x61, 0x0A, 0x1A, 0x0A] := by decide
  have h2 : des_crypt ((triple_des_key_setup QQ_KEY DECRYPT).getD 2 [])
      [0x0C, 0x8E, 0xA2, 0x5C, 0x61, 0x0A, 0x1A, 0x0A] =
      [0x78, 0x9C, 0x45, 0x58, 0xDB, 0x6E, 0x55, 0xD7] := by decide
  rw [triple_des_crypt, h0, h1, h2]

/-! ## Inversion of the codec (claim C3)

`des_crypt` with the reversed subkey list inverts `des_crypt`: the classical
Feistel argument, which only uses that XOR cancels and that `ip` and `inv_ip`
are mutually inverse.
-/

/-- One non-final Feistel round of `des_crypt`. -/
def roundStep (k : List Nat) (st : Nat × Nat) : Nat × Nat :=
  (st.2, des_f st.2 k ^^^ st.1)

def swapPair (st : Nat × Nat) : Nat × Nat := (st.2, st.1)

/-- All rounds applied in the swapped form (the final round is a plain round
followed by a half-swap). -/
def stepsR : List (List Nat) → Nat × Nat → Nat × Nat
  | [], st => st
  | k :: ks, st => stepsR ks (roundStep k st)

theorem stepsR_append (l1 l2 : List (List Nat)) (st : Nat × Nat) :
    stepsR (l1 ++ l2) st = stepsR l2 (stepsR l1 st) := by
  induction l1 generalizing st with
  | nil => rfl
  | cons k ks ih => simp [stepsR, ih]

theorem roundStep_swap_roundStep (k : List Nat) (st : Nat × Nat) :
    roundStep k (swapPair (roundStep k st)) = swapPair st := by
  simp [roundStep, swapPair, Nat.xor_cancel_left]

theorem desRounds_eq_swap_stepsR (ks : List (List Nat)) (st : Nat × Nat)
    (h : ks ≠ []) : desRounds ks st = swapPair (stepsR ks st) := by
  induction ks generalizing st with
  | nil => exact absurd rfl h
  | cons k ks ih =>
    cases ks with
    | nil => rfl
    | cons k' ks' =>
      rw [desRounds, stepsR]
      exact ih (roundStep k st) (by simp)

theorem stepsR_reverse_swap (ks : List (List Nat)) (st : Nat × Nat) :
    stepsR ks.reverse (swapPair (stepsR ks st)) = swapPair st := by
  induction ks generalizing st with
  | nil => rfl
  | cons k ks ih =>
    calc stepsR (k :: ks).reverse (swapPair (stepsR (k :: ks) st))
        = stepsR (ks.reverse ++ [k]) (swapPair (stepsR ks (roundStep k st))) := by
          rw [List.reverse_cons, stepsR]
      _ = stepsR [k] (stepsR ks.reverse (swapPair (stepsR ks (roundStep k st)))) :=
          stepsR_append _ _ _
      _ = stepsR [k] (swapPair (roundStep k st)) := by rw [ih]
      _ = swapPair st := roundStep_swap_roundStep k st

theorem desRounds_reverse (ks : List (List Nat)) (st : Nat × Nat) (h : ks ≠ []) :
    desRounds ks.reverse (desRounds ks st) = st := by
  rw [desRounds_eq_swap_stepsR ks st h,
    desRounds_eq_swap_stepsR ks.reverse _ (by simpa using h),
    stepsR_reverse_swap]
  rfl

/-! ### `ip` and `inv_ip` are mutually inverse -/

theorem and_any {α : Type} (b : Bool) (l : List α) (f : α → Bool) :
    (b && l.any f) = l.any fun x => b && f x := by
  cases b <;> simp

theorem gatherBits_congr {src src' : Nat → Bool} {L : List (Nat × Nat)}
    (h : ∀ p ∈ L, src p.1 = src' p.1) : gatherBits src L = gatherBits src' L := by
  induction L with
  | nil => rfl
  | cons p rest ih =>
    rw [gatherBits, gatherBits, h p (by simp), ih (fun q hq => h q (by simp [hq]))]

theorem gather_comp (src : Nat → Bool) (sel : Nat → List (Nat × Nat)) (tgt : Nat → Nat)
    (L : List (Nat × Nat)) :
    gatherBits (fun t => (gatherBits src (sel t)).testBit (tgt t)) L =
      gatherBits src (L.flatMap fun p =>
        ((sel p.1).filter fun q => decide (q.2 = tgt p.1)).map fun q => (q.1, p.2)) := by
  apply Nat.eq_of_testBit_eq
  intro j
  rw [gatherBits_testBit, gatherBits_testBit, List.any_flatMap]
  refine congrArg (List.any L) (funext fun p => ?_)
  rw [List.any_map, List.any_filter, gatherBits_testBit, and_any]
  refine congrArg (List.any (sel p.1)) (funext fun q => ?_)
  simp only [Function.comp]
  cases decide (p.2 = j) <;> cases decide (q.2 = tgt p.1) <;> cases src q.1 <;> rfl

theorem stBit_ip (input : List Nat) (t : Nat) :
    stBit (ip input) t =
      (gatherBits (inBit input) (if t < 32 then ip_upper_bits else ip_lower_bits)).testBit
        (31 - t % 32) := by
  by_cases h : t < 32 <;> simp [stBit, ip, h]

theorem gather_byte_bits (src : Nat → Bool) (m a : Nat) (ha : a < 2 ^ 8)
    (h : ∀ k < 8, src (8 * m + k) = a.testBit (7 - k)) :
    gatherBits src
      [(8 * m, 7), (8 * m + 1, 6), (8 * m + 2, 5), (8 * m + 3, 4),
       (8 * m + 4, 3), (8 * m + 5, 2), (8 * m + 6, 1), (8 * m + 7, 0)] = a := by
  have h0 : src (8 * m) = a.testBit 7 := by simpa using h 0 (by omega)
  apply Nat.eq_of_testBit_eq
  intro j
  by_cases hj : j < 8
  · rw [gatherBits_testBit]
    interval_cases j <;> simp [h, h0]
  · have hb : gatherBits src
        [(8 * m, 7), (8 * m + 1, 6), (8 * m + 2, 5), (8 * m + 3, 4),
         (8 * m + 4, 3), (8 * m + 5, 2), (8 * m + 6, 1), (8 * m + 7, 0)] < 2 ^ 8 := by
      refine gatherBits_lt _ _ 8 ?_
      intro p hp
      fin_cases hp <;> omega
    rw [testBit_eq_false_of_lt_of_le hb (by omega),
      testBit_eq_false_of_lt_of_le ha (by omega)]

theorem inv_ip_ip (a0 a1 a2 a3 a4 a5 a6 a7 : Nat)
    (h0 : a0 < 2 ^ 8) (h1 : a1 < 2 ^ 8) (h2 : a2 < 2 ^ 8) (h3 : a3 < 2 ^ 8)
    (h4 : a4 < 2 ^ 8) (h5 : a5 < 2 ^ 8) (h6 : a6 < 2 ^ 8) (h7 : a7 < 2 ^ 8) :
    inv_ip (ip [a0, a1, a2, a3, a4, a5, a6, a7]) = [a0, a1, a2, a3, a4, a5, a6, a7] := by
  have hst := funext (stBit_ip [a0, a1, a2, a3, a4, a5, a6, a7])
  have hc := gather_comp (inBit [a0, a1, a2, a3, a4, a5, a6, a7])
    (fun t => if t < 32 then ip_upper_bits else ip_lower_bits) (fun t => 31 - t % 32)
  simp only [inv_ip, List.cons.injEq, and_true]
  refine ⟨?_, ?_, ?_, ?_, ?_, ?_, ?_, ?_⟩ <;> rw [hst]
  · rw [hc invip_byte0]
    exact gather_byte_bits _ 3 a0 h0 (by intro k hk; interval_cases k <;> simp [inBit])
  · rw [hc invip_byte1]
    exact gather_byte_bits _ 2 a1 h1 (by intro k hk; interval_cases k <;> simp [inBit])
  · rw [hc invip_byte2]
    exact gather_byte_bits _ 1 a2 h2 (by intro k hk; interval_cases k <;> simp [inBit])
  · rw [hc invip_byte3]
    exact gather_byte_bits _ 0 a3 h3 (by intro k hk; interval_cases k <;> simp [inBit])
  · rw [hc invip_byte4]
    exact gather_byte_bits _ 7 a4 h4 (by intro k hk; interval_cases k <;> simp [inBit])
  · rw [hc invip_byte5]
    exact gather_byte_bits _ 6 a5 h5 (by intro k hk; interval_cases k <;> simp [inBit])
  · rw [hc invip_byte6]
    exact gather_byte_bits _ 5 a6 h6 (by intro k hk; interval_cases k <;> simp [inBit])
  · rw [hc invip_byte7]
    exact gather_byte_bits _ 4 a7 h7 (by intro k hk; interval_cases k <;> simp [inBit])

/-- The byte term lists of `inv_ip`, in output index order. -/
def invipBytes : List (List (Nat × Nat)) :=
  [invip_byte0, invip_byte1, invip_byte2, invip_byte3,
   invip_byte4, invip_byte5, invip_byte6, invip_byte7]

theorem gather_word_bits (src : Nat → Bool) (base s : Nat) (hs : s < 2 ^ 32)
    (h : ∀ k < 32, src (base + k) = s.testBit (31 - k)) :
    gatherBits src
      [(base, 31), (base + 1, 30), (base + 2, 29), (base + 3, 28),
       (base + 4, 27), (base + 5, 26), (base + 6, 25), (base + 7, 24),
       (base + 8, 23), (base + 9, 22), (base + 10, 21), (base + 11, 20),
       (base + 12, 19), (base + 13, 18), (base + 14, 17), (base + 15, 16),
       (base + 16, 15), (base + 17, 14), (base + 18, 13), (base + 19, 12),
       (base + 20, 11), (base + 21, 10), (base + 22, 9), (base + 23, 8),
       (base + 24, 7), (base + 25, 6), (base + 26, 5), (base + 27, 4),
       (base + 28, 3), (base + 29, 2), (base + 30, 1), (base + 31, 0)] = s := by
  have h0 : src base = s.testBit 31 := by simpa using h 0 (by omega)
  apply Nat.eq_of_testBit_eq
  intro j
  by_cases hj : j < 32
  · rw [gatherBits_testBit]
    interval_cases j <;> simp [h, h0]
  · have hb : gatherBits src
        [(base, 31), (base + 1, 30), (base + 2, 29), (base + 3, 28),
         (base + 4, 27), (base + 5, 26), (base + 6, 25), (base + 7, 24),
         (base + 8, 23), (base + 9, 22), (base + 10, 21), (base + 11, 20),
         (base + 12, 19), (base + 13, 18), (base + 14, 17), (base + 15, 16),
         (base + 16, 15), (base + 17, 14), (base + 18, 13), (base + 19, 12),
         (base + 20, 11), (base + 21, 10), (base + 22, 9), (base + 23, 8),
         (base + 24, 7), (base + 25, 6), (base + 26, 5), (base + 27, 4),
         (base + 28, 3), (base + 29, 2), (base + 30, 1), (base + 31, 0)] < 2 ^ 32 := by
      refine gatherBits_lt _ _ 32 ?_
      intro p hp
      fin_cases hp <;> omega
    rw [testBit_eq_false_of_lt_of_le hb (by omega),
      testBit_eq_false_of_lt_of_le hs (by omega)]

theorem ip_inv_ip (s0 s1 : Nat) (hs0 : s0 < 2 ^ 32) (hs1 : s1 < 2 ^ 32) :
    ip (inv_ip (s0, s1)) = (s0, s1) := by
  have hup : gatherBits (inBit (inv_ip (s0, s1))) ip_upper_bits =
      gatherBits (fun t =>
        (gatherBits (stBit (s0, s1))
          (invipBytes.getD (t / 32 * 4 + 3 - t % 32 / 8) [])).testBit (7 - t % 8))
        ip_upper_bits := by
    refine gatherBits_congr ?_
    intro p hp
    fin_cases hp <;> rfl
  have hlo : gatherBits (inBit (inv_ip (s0, s1))) ip_lower_bits =
      gatherBits (fun t =>
        (gatherBits (stBit (s0, s1))
          (invipBytes.getD (t / 32 * 4 + 3 - t % 32 / 8) [])).testBit (7 - t % 8))
        ip_lower_bits := by
    refine gatherBits_congr ?_
    intro p hp
    fin_cases hp <;> rfl
  have hc := gather_comp (stBit (s0, s1))
    (fun t => invipBytes.getD (t / 32 * 4 + 3 - t % 32 / 8) []) (fun t => 7 - t % 8)
  have hsrc0 : ∀ k < 32, stBit (s0, s1) (0 + k) = s0.testBit (31 - k) := by
    intro k hk
    simp [stBit, hk, Nat.mod_eq_of_lt hk]
  have hsrc1 : ∀ k < 32, stBit (s0, s1) (32 + k) = s1.testBit (31 - k) := by
    intro k hk
    have hnot : ¬ 32 + k < 32 := by omega
    have hm : (32 + k) % 32 = k := by omega
    simp [stBit, hnot, hm]
  simp only [ip, Prod.mk.injEq]
  constructor
  · rw [hup, hc ip_upper_bits]
    exact gather_word_bits _ 0 s0 hs0 (by simpa using hsrc0)
  · rw [hlo, hc ip_lower_bits]
    exact gather_word_bits _ 32 s1 hs1 hsrc1

theorem ip_inv_ip_pair (st : Nat × Nat) (h1 : st.1 < 2 ^ 32) (h2 : st.2 < 2 ^ 32) :
    ip (inv_ip st) = st := by
  obtain ⟨s0, s1⟩ := st
  exact ip_inv_ip s0 s1 h1 h2

theorem all_snd_lt_decide {L : List (Nat × Nat)} {n : Nat}
    (h : (L.all fun p => decide (p.2 < n)) = true) : ∀ p ∈ L, p.2 < n := by
  simpa [List.all_eq_true] using h

/-! ### Word bounds along `des_crypt` -/

theorem bitnumintl_lt (a b c : Nat) : bitnumintl a b c < 2 ^ 32 := by
  have h1 : ((a <<< b) % 2 ^ 32) &&& 0x80000000 ≤ 0x80000000 := Nat.and_le_right
  have h2 : bitnumintl a b c ≤ ((a <<< b) % 2 ^ 32) &&& 0x80000000 := by
    rw [bitnumintl, Nat.shiftRight_eq_div_pow]
    exact Nat.div_le_self _ _
  calc bitnumintl a b c ≤ 0x80000000 := le_trans h2 h1
    _ < 2 ^ 32 := by norm_num

theorem des_f_lt (s : Nat) (k : List Nat) : des_f s k < 2 ^ 32 := by
  unfold des_f
  dsimp only
  repeat' apply lor_lt_two_pow
  all_goals exact bitnumintl_lt _ _ _

theorem desRounds_lt (keys : List (List Nat)) (st : Nat × Nat)
    (h1 : st.1 < 2 ^ 32) (h2 : st.2 < 2 ^ 32) :
    (desRounds keys st).1 < 2 ^ 32 ∧ (desRounds keys st).2 < 2 ^ 32 := by
  induction keys generalizing st with
  | nil => exact ⟨h1, h2⟩
  | cons k ks ih =>
    cases ks with
    | nil => exact ⟨Nat.xor_lt_two_pow (des_f_lt _ _) h1, h2⟩
    | cons k' ks' =>
      rw [desRounds]
      exact ih (st.2, des_f st.2 k ^^^ st.1) h2 (Nat.xor_lt_two_pow (des_f_lt _ _) h1)

theorem ip_fst_lt (input : List Nat) : (ip input).1 < 2 ^ 32 :=
  gatherBits_lt _ _ 32 (all_snd_lt_decide (by decide))

theorem ip_snd_lt (input : List Nat) : (ip input).2 < 2 ^ 32 :=
  gatherBits_lt _ _ 32 (all_snd_lt_decide (by decide))

theorem inv_ip_bytes_lt (st : Nat × Nat) : ∀ b ∈ inv_ip st, b < 2 ^ 8 := by
  intro b hb
  simp only [inv_ip, List.mem_cons, List.not_mem_nil, or_false] at hb
  rcases hb with h | h | h | h | h | h | h | h <;> subst h <;>
    exact gatherBits_lt _ _ 8 (all_snd_lt_decide (by decide))

theorem des_crypt_length (keys : List (List Nat)) (input : List Nat) :
    (des_crypt keys input).length = 8 := rfl

theorem des_crypt_bytes_lt (keys : List (List Nat)) (input : List Nat) :
    ∀ b ∈ des_crypt keys input, b < 2 ^ 8 :=
  inv_ip_bytes_lt _

/-! ### `des_crypt` with reversed subkeys inverts `des_crypt` -/

theorem des_crypt_reverse (keys : List (List Nat)) (input : List Nat) (hk : keys ≠ [])
    (hlen : input.length = 8) (hbytes : ∀ b ∈ input, b < 2 ^ 8) :
    des_crypt keys.reverse (des_crypt keys input) = input := by
  rcases input with _ | ⟨a0, _ | ⟨a1, _ | ⟨a2, _ | ⟨a3, _ | ⟨a4, _ | ⟨a5,
    _ | ⟨a6, _ | ⟨a7, _ | ⟨a8, rest⟩⟩⟩⟩⟩⟩⟩⟩⟩ <;> simp at hlen
  have hst := desRounds_lt keys (ip [a0, a1, a2, a3, a4, a5, a6, a7])
    (ip_fst_lt _) (ip_snd_lt _)
  show inv_ip (desRounds keys.reverse
    (ip (inv_ip (desRounds keys (ip [a0, a1, a2, a3, a4, a5, a6, a7]))))) = _
  rw [ip_inv_ip_pair _ hst.1 hst.2, desRounds_reverse keys _ hk,
    inv_ip_ip a0 a1 a2 a3 a4 a5 a6 a7 (hbytes a0 (by simp)) (hbytes a1 (by simp))
      (hbytes a2 (by simp)) (hbytes a3 (by simp)) (hbytes a4 (by simp))
      (hbytes a5 (by simp)) (hbytes a6 (by simp)) (hbytes a7 (by simp))]

theorem des_crypt_reverse_enc (keys : List (List Nat)) (input : List Nat) (hk : keys ≠ [])
    (hlen : input.length = 8) (hbytes : ∀ b ∈ input, b < 2 ^ 8) :
    des_crypt keys (des_crypt keys.reverse input) = input := by
  have h := des_crypt_reverse keys.reverse input (by simpa using hk) hlen hbytes
  rwa [List.reverse_reverse] at h

theorem key_schedule_decrypt_eq (key : List Nat) :
    key_schedule key DECRYPT = (key_schedule key ENCRYPT).reverse := rfl

theorem key_schedule_ne_nil (key : List Nat) (mode : Nat) :
    key_schedule key mode ≠ [] := by
  rw [key_schedule]
  by_cases h : mode = DECRYPT <;>
    simp [h, ksLoop, key_rnd_shift]

/-- Claim C3: for every 8-byte block `c` and every 24-byte key `K`, encrypting
the result of decrypting `c` with the custom Triple-DES codec gives back `c`:
applying `triple_des_crypt` with the decrypt-mode key schedule for `K` and then
`triple_des_crypt` with the encrypt-mode key schedule for `K` is the identity
on `c`. -/
theorem c3_tdes_encrypt_of_decrypt (key c : List Nat)
    (hklen : key.length = 24) (hkbytes : ∀ b ∈ key, b < 2 ^ 8)
    (hclen : c.length = 8) (hcbytes : ∀ b ∈ c, b < 2 ^ 8) :
    triple_des_crypt (triple_des_key_setup key ENCRYPT)
      (triple_des_crypt (triple_des_key_setup key DECRYPT) c) = c := by
  have henc : triple_des_key_setup key ENCRYPT =
      [key_schedule (key.take 8) ENCRYPT,
       key_schedule ((key.drop 8).take 8) DECRYPT,
       key_schedule ((key.drop 16).take 8) ENCRYPT] := by
    rw [triple_des_key_setup, if_pos rfl]
  have hdec : triple_des_key_setup key DECRYPT =
      [key_schedule ((key.drop 16).take 8) DECRYPT,
       key_schedule ((key.drop 8).take 8) ENCRYPT,
       key_schedule (key.take 8) DECRYPT] := by
    rw [triple_des_key_setup, if_neg (by decide)]
  rw [triple_des_crypt, triple_des_crypt, henc, hdec]
  simp only [List.getD_cons_zero, List.getD_cons_succ]
  rw [key_schedule_decrypt_eq (key.take 8), key_schedule_decrypt_eq ((key.drop 8).take 8),
    key_schedule_decrypt_eq ((key.drop 16).take 8)]
  rw [des_crypt_reverse_enc (key_schedule (key.take 8) ENCRYPT) _
      (key_schedule_ne_nil _ _) (des_crypt_length _ _) (des_crypt_bytes_lt _ _),
    des_crypt_reverse (key_schedule ((key.drop 8).take 8) ENCRYPT) _
      (key_schedule_ne_nil _ _) (des_crypt_length _ _) (des_crypt_bytes_lt _ _),
    des_crypt_reverse_enc (key_schedule ((key.drop 16).take 8) ENCRYPT) _
      (key_schedule_ne_nil _ _) hclen hcbytes]

/-- Witness for C3 at the QQ Music key and the test-vector ciphertext block. -/
theorem c3_tdes_encrypt_of_decrypt_witness :
    QQ_KEY.length = 24 ∧
      triple_des_crypt (triple_des_key_setup QQ_KEY ENCRYPT)
        (triple_des_crypt (triple_des_key_setup QQ_KEY DECRYPT)
          [0x00, 0x36, 0x7F, 0xE8, 0xE5, 0x05, 0x42, 0xAB]) =
        [0x00, 0x36, 0x7F, 0xE8, 0xE5, 0x05, 0x42, 0xAB] :=
  ⟨by decide,
    c3_tdes_encrypt_of_decrypt QQ_KEY [0x00, 0x36, 0x7F, 0xE8, 0xE5, 0x05, 0x42, 0xAB]
      (by decide) (by decide) (by decide) (by decide)⟩

/-! ## MD5 and the track-id derivation (claim C1)

`src/library.rs` line 268 computes the track id as
`format!("{:x}", md5::compute(path.to_string_lossy().as_bytes()))` on the
path that `scan_directory` hands to `parse_audio_file`, i.e. the full
`dir.join(file_name)` path including the library root.  The `md5` crate is an
external dependency; we embed the MD5 algorithm (RFC 1321) it implements.
-/

def MD5_S : List Nat :=
  [7, 12, 17, 22, 7, 12, 17, 22, 7, 12, 17, 22, 7, 12, 17, 22,
   5, 9, 14, 20, 5, 9, 14, 20, 5, 9, 14, 20, 5, 9, 14, 20,
   4, 11, 16, 23, 4, 11, 16, 23, 4, 11, 16, 23, 4, 11, 16, 23,
   6, 10, 15, 21, 6, 10, 15, 21, 6, 10, 15, 21, 6, 10, 15, 21]

def MD5_K : List Nat :=
  [3614090360, 3905402710, 606105819, 3250441966, 4118548399, 1200080426,
   2821735955, 4249261313, 1770035416, 2336552879, 4294925233, 2304563134,
   1804603682, 4254626195, 2792965006, 1236535329, 4129170786, 3225465664,
   643717713, 3921069994, 3593408605, 38016083, 3634488961, 3889429448,
   568446438, 3275163606, 4107603335, 1163531501, 2850285829, 4243563512,
   1735328473, 2368359562, 4294588738, 2272392833, 1839030562, 4259657740,
   2763975236, 1272893353, 4139469664, 3200236656, 681279174, 3936430074,
   3572445317, 76029189, 3654602809, 3873151461, 530742520, 3299628645,
   4096336452, 1126891415, 2878612391, 4237533241, 1700485571, 2399980690,
   4293915773, 2240044497, 1873313359, 4264355552, 2734768916, 1309151649,
   4149444226, 3174756917, 718787259, 3951481745]

def rotl32 (x c : Nat) : Nat := ((x <<< c) % 2 ^ 32) ||| (x >>> (32 - c))

/-- MD5 padding: append `0x80`, zero bytes until the length is 56 mod 64,
then the original bit length as 8 little-endian bytes. -/
def md5pad (msg : List Nat) : List Nat :=
  msg ++ [0x80] ++ List.replicate ((119 - msg.length % 64) % 64) 0 ++
    ((List.range 8).map fun i => (((msg.length * 8) % 2 ^ 64) >>> (8 * i)) &&& 0xff)

/-- The sixteen little-endian 32-bit words of one 64-byte block. -/
def md5words (block : List Nat) : List Nat :=
  (List.range 16).map fun j =>
    block.getD (4 * j) 0 ||| (block.getD (4 * j + 1) 0 <<< 8) |||
      (block.getD (4 * j + 2) 0 <<< 16) ||| (block.getD (4 * j + 3) 0 <<< 24)

/-- The round function of step `i` (bitwise NOT on u32 is XOR with the all-ones
word). -/
def md5F (i B C D : Nat) : Nat :=
  if i < 16 then (B &&& C) ||| ((B ^^^ 0xffffffff) &&& D)
  else if i < 32 then (D &&& B) ||| ((D ^^^ 0xffffffff) &&& C)
  else if i < 48 then B ^^^ C ^^^ D
  else C ^^^ (B ||| (D ^^^ 0xffffffff))

def md5G (i : Nat) : Nat :=
  if i < 16 then i
  else if i < 32 then (5 * i + 1) % 16
  else if i < 48 then (3 * i + 5) % 16
  else (7 * i) % 16

def md5Step (M : List Nat) (st : Nat × Nat × Nat × Nat) (i : Nat) :
    Nat × Nat × Nat × Nat :=
  match st with
  | (A, B, C, D) =>
    let F := (md5F i B C D + A + MD5_K.getD i 0 + M.getD (md5G i) 0) % 2 ^ 32
    (D, (B + rotl32 F (MD5_S.getD i 0)) % 2 ^ 32, B, C)

def md5Block (st : Nat × Nat × Nat × Nat) (M : List Nat) : Nat × Nat × Nat × Nat :=
  match st, (List.range 64).foldl (md5Step M) st with
  | (a0, b0, c0, d0), (A, B, C, D) =>
    ((a0 + A) % 2 ^ 32, (b0 + B) % 2 ^ 32, (c0 + C) % 2 ^ 32, (d0 + D) % 2 ^ 32)

/-- The 16 digest bytes of MD5 over a byte string. -/
def md5Digest (msg : List Nat) : List Nat :=
  let padded := md5pad msg
  match (List.range (padded.length / 64)).foldl
      (fun st i => md5Block st (md5words ((padded.drop (64 * i)).take 64)))
      (0x67452301, 0xefcdab89, 0x98badcfe, 0x10325476) with
  | (a, b, c, d) =>
    [a, b, c, d].flatMap fun v => (List.range 4).map fun i => (v >>> (8 * i)) &&& 0xff

def hexChar (n : Nat) : Char :=
  if n < 10 then Char.ofNat (48 + n) else Char.ofNat (87 + n)

/-- Rust's `format!("{:x}", digest)`: each byte as two lowercase hex digits. -/
def md5_hex (msg : List Nat) : String :=
  String.mk ((md5Digest msg).flatMap fun b => [hexChar (b / 16), hexChar (b % 16)])

/-- UTF-8 bytes of one character. -/
def charUtf8 (c : Char) : List Nat :=
  let n := c.toNat
  if n < 0x80 then [n]
  else if n < 0x800 then [0xC0 ||| (n >>> 6), 0x80 ||| (n &&& 0x3F)]
  else if n < 0x10000 then
    [0xE0 ||| (n >>> 12), 0x80 ||| ((n >>> 6) &&& 0x3F), 0x80 ||| (n &&& 0x3F)]
  else
    [0xF0 ||| (n >>> 18), 0x80 ||| ((n >>> 12) &&& 0x3F),
     0x80 ||| ((n >>> 6) &&& 0x3F), 0x80 ||| (n &&& 0x3F)]

/-- UTF-8 bytes of a string (`str::as_bytes`). -/
def strBytes (s : String) : List Nat := s.data.flatMap charUtf8

/-- RFC 1321 test vector, validating the MD5 embedding. -/
theorem md5_hex_empty : md5_hex (strBytes "") = "d41d8cd98f00b204e9800998ecf8427e" := by
  decide

/-- RFC 1321 test vector, validating the MD5 embedding. -/
theorem md5_hex_abc : md5_hex (strBytes "abc") = "900150983cd24fb0d6963f7d28e17f72" := by
  decide

/-- library.rs line 268: `parse_audio_file` derives the track id from the
bytes of the path it was handed (after `to_string_lossy`). -/
def parse_audio_file_id (path : String) : String := md5_hex (strBytes path)

/-- The path `scan_directory` hands to `parse_audio_file` for a file `name`
in directory `root`: `entry.path()` is `root` joined with `name`, so it
includes the library root prefix. -/
def scan_entry_path (root name : String) : String := root ++ "/" ++ name

/-- Modelled from the spec: `id = md5(relative_path_bytes).hex()` — the id the
specification prescribes, computed from the path relative to the library
root (the code in `src/library.rs` hashes the full path instead). -/
def spec_track_id (rel : String) : String := md5_hex (strBytes rel)

/-- Claim C1 (code bug, evaluated at the failing input): the same file
`song.flac`, mounted under library roots `/music` and `/mnt/music`, receives
two different ids from `parse_audio_file`, and neither is the spec's id
`md5("song.flac")`: the code hashes the absolute path, so ids are not stable
across mounts. -/
theorem c1_track_id_not_mount_stable :
    parse_audio_file_id (scan_entry_path "/music" "song.flac") ≠
        parse_audio_file_id (scan_entry_path "/mnt/music" "song.flac") ∧
      parse_audio_file_id (scan_entry_path "/music" "song.flac") ≠
        spec_track_id "song.flac" := by
  refine ⟨?_, ?_⟩ <;> decide

/-- Independent cross-check of the embedded MD5 against the digest of the
failing input (computed with a reference MD5 implementation). -/
theorem parse_audio_file_id_concrete :
    parse_audio_file_id "/music/song.flac" = "40196f9d2a9c1547c9531230b29d8ea5" := by
  decide

/-! ## Library scan filter (claim C4)

`scan_directory` (src/library.rs lines 102-144) walks the tree and, for each
regular file, looks at `path.extension().and_then(to_str)` and only calls
`parse_audio_file` when `ext == "flac" || ext == "mp3"`; a successful parse is
pushed onto the track list, a failed one is logged and skipped.  We model the
regular files encountered by the walk, in order, as a list of
`(extension as the code sees it, parse result)` pairs; the parse result is an
abstract track token (`none` models a parse error).
-/

/-- One file's treatment by the loop body of `scan_directory`. -/
def scan_file_step (tracks : List Nat) (f : Option String × Option Nat) : List Nat :=
  match f.1 with
  | some ext =>
    if ext == "flac" || ext == "mp3" then
      match f.2 with
      | some t => tracks ++ [t]
      | none => tracks
    else tracks
  | none => tracks

/-- The track list `scan_directory` accumulates over the walked files. -/
def scan_directory_tracks (files : List (Option String × Option Nat)) : List Nat :=
  files.foldl scan_file_step []

/-- Modelled from the spec: the claim's scan filter, which considers exactly
the regular files whose extension is in the given set, parses each such file,
appends it on success and skips it on failure. -/
def spec_scan_step (exts : List String) (tracks : List Nat)
    (f : Option String × Option Nat) : List Nat :=
  match f.1 with
  | some ext =>
    if exts.contains ext then
      match f.2 with
      | some t => tracks ++ [t]
      | none => tracks
    else tracks
  | none => tracks

/-- Modelled from the spec: the index contents the claim prescribes. -/
def spec_scan_tracks (exts : List String) (files : List (Option String × Option Nat)) :
    List Nat :=
  files.foldl (spec_scan_step exts) []

/-- Claim C4 (counterexample): a parseable regular file with extension `ogg`
is never added to the index by `scan_directory`, although the claim says every
file with extension in {flac, mp3, ogg, m4a} is passed to the extractor and
appended on success. -/
theorem c4_ogg_not_scanned :
    scan_directory_tracks [(some "ogg", some 1)] ≠
      spec_scan_tracks ["flac", "mp3", "ogg", "m4a"] [(some "ogg", some 1)] := by
  decide

/-- Claim C4 (amended): `scan_directory` considers exactly the regular files
whose extension is `flac` or `mp3` — every such file's successful parse is
appended, parse failures are skipped, and no file with any other extension is
ever added. -/
theorem c4_scan_exactly_flac_mp3 (files : List (Option String × Option Nat)) :
    scan_directory_tracks files = spec_scan_tracks ["flac", "mp3"] files := by
  unfold scan_directory_tracks spec_scan_tracks
  have hstep : scan_file_step = spec_scan_step ["flac", "mp3"] := by
    funext tracks f
    rcases f with ⟨ext?, parsed⟩
    cases ext? with
    | none => rfl
    | some ext =>
      simp only [scan_file_step, spec_scan_step, List.contains_cons,
        List.contains_nil, Bool.or_false]
  rw [hstep]

/-! ## Lyric formats, `from_str` and the upload handler (claims C5, C10) -/

inductive LyricFormat where
  | Plain : LyricFormat
  | Lrc : LyricFormat
  | LrcWord : LyricFormat
deriving DecidableEq

/-- Rust `str::to_lowercase`, modelled character-wise (`Char.toLower` agrees
with Rust's lowercase mapping on all the strings handled here). -/
def rust_to_lowercase (s : String) : String := String.mk (s.data.map Char.toLower)

/-- Rust `str::contains(pattern)`: substring containment. -/
def str_contains (s pat : String) : Bool := decide (pat.data <:+: s.data)

/-- lyrics.rs `LyricFormat::from_str`: lowercase, then match; everything not
recognised falls to `Plain`. -/
def LyricFormat.from_str (s : String) : LyricFormat :=
  if rust_to_lowercase s = "lrc" then .Lrc
  else if rust_to_lowercase s = "lrc_word" ∨ rust_to_lowercase s = "lrcword" ∨
      rust_to_lowercase s = "word" ∨ rust_to_lowercase s = "extended" then .LrcWord
  else .Plain

/-- server.rs `upload_lyrics` lines 630-639: the stored format. A declared
format goes through `LyricFormat::from_str`; otherwise the handler checks
`content.contains("[00:") || content.contains("[01:")` and stores `Lrc` or
`Plain` — it never calls `LyricFormat::detect_from_content`. -/
def upload_stored_format (fmt : Option String) (content : String) : LyricFormat :=
  match fmt with
  | some f => LyricFormat.from_str f
  | none =>
    if str_contains content "[00:" || str_contains content "[01:" then .Lrc
    else .Plain

/-- Claim C5 (counterexample): a word-timed upload without a declared format
is stored as `plain`, not `lrc_word` — the upload handler's inline check only
looks for `"[00:"` / `"[01:"`. -/
theorem c5_word_timing_stored_plain :
    upload_stored_format none "挪(0,721)威(721,721)" ≠ LyricFormat.LrcWord ∧
      upload_stored_format none "挪(0,721)威(721,721)" = LyricFormat.Plain := by
  refine ⟨?_, ?_⟩ <;> decide

/-- Claim C5 (amended): when PUT /lyrics/:id is called without a declared
format, the stored format is `lrc` exactly when the content contains
`"[00:"` or `"[01:"`, and `plain` otherwise; in particular
`"挪(0,721)威(721,721)"` is stored as `plain`, `"[00:12.34]line"` as `lrc`,
and `"just text"` as `plain`. -/
theorem c5_upload_format_detection (content : String) :
    upload_stored_format none content =
        (if str_contains content "[00:" || str_contains content "[01:"
          then LyricFormat.Lrc else LyricFormat.Plain) ∧
      upload_stored_format none "挪(0,721)威(721,721)" = LyricFormat.Plain ∧
      upload_stored_format none "[00:12.34]line" = LyricFormat.Lrc ∧
      upload_stored_format none "just text" = LyricFormat.Plain := by
  exact ⟨rfl, by decide, by decide, by decide⟩

/-- Claim C10: `LyricFormat::from_str` is total and never rejects its input —
any string whose lowercase form is not one of `lrc`, `lrc_word`, `lrcword`,
`word`, `extended` maps to `Plain`, so a PUT /lyrics/:id declaring an
unrecognized format does not fail and the lyric is stored with format
`plain`. -/
theorem c10_from_str_unrecognized_is_plain (s content : String)
    (h : ¬ rust_to_lowercase s ∈ ["lrc", "lrc_word", "lrcword", "word", "extended"]) :
    LyricFormat.from_str s = LyricFormat.Plain ∧
      upload_stored_format (some s) content = LyricFormat.Plain := by
  simp only [List.mem_cons, List.not_mem_nil, or_false, not_or] at h
  obtain ⟨h1, h2, h3, h4, h5⟩ := h
  have hfs : LyricFormat.from_str s = LyricFormat.Plain := by
    rw [LyricFormat.from_str, if_neg h1, if_neg (by simp [h2, h3, h4, h5])]
  exact ⟨hfs, hfs⟩

/-- Witness for C10 at the unrecognized format string `"xyz"`. -/
theorem c10_from_str_unrecognized_is_plain_witness :
    ¬ rust_to_lowercase "xyz" ∈ ["lrc", "lrc_word", "lrcword", "word", "extended"] ∧
      LyricFormat.from_str "xyz" = LyricFormat.Plain ∧
      upload_stored_format (some "xyz") "la la" = LyricFormat.Plain :=
  ⟨by decide, c10_from_str_unrecognized_is_plain "xyz" "la la" (by decide)⟩

/-! ## HTTP Range parsing and 206 responses (claim C6)

Embeds `parse_range` and `stream_range` from src/server.rs.  Strings are
handled as their character lists (all relevant characters are ASCII, so this
matches Rust's byte indexing), u64 values as `Nat` with the explicit
`< 2 ^ 64` overflow check of `str::parse::<u64>`.
-/

/-- Rust `str::split(char)`: splits at every separator, keeping empty pieces. -/
def rust_split (sep : Char) : List Char → List (List Char)
  | [] => [[]]
  | c :: rest =>
    if c = sep then [] :: rust_split sep rest
    else
      match rust_split sep rest with
      | [] => [[c]]
      | piece :: pieces => (c :: piece) :: pieces

theorem rust_split_no_sep (sep : Char) (l : List Char) (h : ∀ c ∈ l, c ≠ sep) :
    rust_split sep l = [l] := by
  induction l with
  | nil => rfl
  | cons c rest ih =>
    rw [rust_split, if_neg (h c (by simp)), ih (fun d hd => h d (by simp [hd]))]

/-- Rust `str::trim` (on ASCII content; `Char.isWhitespace` agrees with Rust's
whitespace classes there). -/
def trimChars (l : List Char) : List Char :=
  (((l.dropWhile Char.isWhitespace).reverse).dropWhile Char.isWhitespace).reverse

theorem dropWhile_eq_self {p : Char → Bool} {l : List Char}
    (h : ∀ c ∈ l, p c = false) : l.dropWhile p = l := by
  cases l with
  | nil => rfl
  | cons c rest => simp [List.dropWhile, h c (by simp)]

theorem trimChars_all_digits {l : List Char} (h : l.all Char.isDigit = true) :
    trimChars l = l := by
  have hd : ∀ c ∈ l, Char.isWhitespace c = false := by
    intro c hc
    have hdig : c.isDigit = true := by
      rw [List.all_eq_true] at h
      exact h c hc
    cases hdw : c.isWhitespace
    · rfl
    · exfalso
      have hws := hdw
      simp [Char.isWhitespace] at hws
      obtain ((h1 | h1) | h1) | h1 := hws <;> subst h1 <;>
        exact absurd hdig (by decide)
  rw [trimChars, dropWhile_eq_self hd,
    dropWhile_eq_self (fun c hc => hd c (by simpa using hc)), List.reverse_reverse]

/-- Rust `str::parse::<u64>`: optional leading `+`, one or more ASCII digits,
value below `2 ^ 64`. -/
def parseU64 (cs : List Char) : Option Nat :=
  let ds := match cs with
    | '+' :: rest => rest
    | _ => cs
  if ds = [] then none
  else if ds.all Char.isDigit then
    let v := ds.foldl (fun a c => a * 10 + (c.toNat - 48)) 0
    if v < 2 ^ 64 then some v else none
  else none

/-- `range_str.starts_with("bytes=")`. -/
def starts_with_bytes (s : String) : Bool :=
  decide (s.data.take 6 = "bytes=".data)

/-- server.rs `parse_range` (lines 248-292). -/
def parse_range (range_str : String) (file_size : Nat) : Option (Nat × Nat) :=
  if starts_with_bytes range_str = false then none
  else
    let parts := rust_split '-' (range_str.data.drop 6)
    if parts.length ≠ 2 then none
    else
      let start_str := trimChars (parts.getD 0 [])
      let end_str := trimChars (parts.getD 1 [])
      match start_str.isEmpty, end_str.isEmpty with
      | false, false =>
        match parseU64 start_str, parseU64 end_str with
        | some start, some e =>
          if start > e ∨ start ≥ file_size then none
          else some (start, min e (file_size - 1))
        | _, _ => none
      | false, true =>
        match parseU64 start_str with
        | some start => if start ≥ file_size then none else some (start, file_size - 1)
        | none => none
      | true, false =>
        match parseU64 end_str with
        | some suffix_length =>
          if suffix_length = 0 ∨ suffix_length > file_size then none
          else some (file_size - suffix_length, file_size - 1)
        | none => none
      | true, true => none

/-- The observable parts of the 206 response `stream_range` builds
(src/server.rs lines 295-341): status, `Content-Length`, `Content-Range`, and
the length of the body read with `read_exact` into a buffer of
`end - start + 1` bytes. -/
structure RangeResponse where
  status : Nat
  contentLength : Nat
  contentRange : String
  bodyLen : Nat
deriving DecidableEq

/-- server.rs `stream_range`: seek to `start`, read `end - start + 1` bytes,
respond 206 with `Content-Length` and `Content-Range: bytes start-end/total`. -/
def stream_range (start e total_size : Nat) : RangeResponse :=
  { status := 206
    contentLength := e - start + 1
    contentRange := "bytes " ++ toString start ++ "-" ++ toString e ++ "/" ++ toString total_size
    bodyLen := e - start + 1 }

/-- Claim C6: every 206 range response satisfies
`Content-Length = end - start + 1` and
`Content-Range: bytes start-end/total` with `total` the file size, and a
suffix request `bytes=-N` with `0 < N ≤ total` resolves to
`start = total - N`, `end = total - 1`. -/
theorem c6_range_responses (total N : Nat) (t : List Char)
    (hne : t ≠ []) (hdig : t.all Char.isDigit = true)
    (hparse : parseU64 t = some N) (hpos : 0 < N) (hle : N ≤ total) :
    (∀ s st en, parse_range s total = some (st, en) →
        stream_range st en total =
          { status := 206
            contentLength := en - st + 1
            contentRange := "bytes " ++ toString st ++ "-" ++ toString en ++
              "/" ++ toString total
            bodyLen := en - st + 1 }) ∧
      parse_range (String.mk ("bytes=-".data ++ t)) total =
        some (total - N, total - 1) := by
  constructor
  · intro s st en _
    rfl
  · have hstart : starts_with_bytes (String.mk ("bytes=-".data ++ t)) = true := by
      rw [starts_with_bytes]
      rfl
    have hdrop : (String.mk ("bytes=-".data ++ t)).data.drop 6 = '-' :: t := rfl
    have hnosep : ∀ c ∈ t, c ≠ '-' := by
      intro c hc heq
      rw [List.all_eq_true] at hdig
      have := hdig c hc
      rw [heq] at this
      simp at this
    have hsplit : rust_split '-' ((String.mk ("bytes=-".data ++ t)).data.drop 6) =
        [[], t] := by
      rw [hdrop, rust_split, if_pos rfl, rust_split_no_sep '-' t hnosep]
    have htrim : trimChars t = t := trimChars_all_digits hdig
    have hempty : t.isEmpty = false := by
      cases t with
      | nil => exact absurd rfl hne
      | cons c rest => rfl
    have hget0 : ([[], t] : List (List Char)).getD 0 [] = [] := rfl
    have hget1 : ([[], t] : List (List Char)).getD 1 [] = t := rfl
    rw [parse_range]
    rw [if_neg (by rw [hstart]; simp)]
    simp only [hsplit]
    rw [if_neg (by simp)]
    simp only [hget0, hget1, htrim, show trimChars [] = [] from rfl,
      List.isEmpty_nil, hempty, hparse]
    rw [if_neg (by omega)]

/-- Witness for C6: `Range: bytes=-50` on a 1,000,000-byte file resolves to
bytes 999950-999999, a 50-byte 206 body. -/
theorem c6_range_responses_witness :
    ("50".data ≠ [] ∧ "50".data.all Char.isDigit = true ∧
        parseU64 "50".data = some 50 ∧ 0 < 50 ∧ 50 ≤ 1000000) ∧
      ((∀ s st en, parse_range s 1000000 = some (st, en) →
          stream_range st en 1000000 =
            { status := 206
              contentLength := en - st + 1
              contentRange := "bytes " ++ toString st ++ "-" ++ toString en ++
                "/" ++ toString 1000000
              bodyLen := en - st + 1 }) ∧
        parse_range (String.mk ("bytes=-".data ++ "50".data)) 1000000 =
          some (1000000 - 50, 1000000 - 1)) :=
  ⟨⟨by decide, by decide, by decide, by decide, by decide⟩,
    c6_range_responses 1000000 50 "50".data (by decide) (by decide) (by decide)
      (by decide) (by decide)⟩

/-- Spot check of `parse_range` on the spec's mid-file scenario. -/
theorem parse_range_mid_example :
    parse_range "bytes=100-199" 1000000 = some (100, 199) := by decide

/-- Spot check: a malformed range is rejected (`parse_range` returns `none`,
and `stream_track` then falls back to a full 200 response). -/
theorem parse_range_malformed_example :
    parse_range "bytes=1-2-3" 1000000 = none ∧ parse_range "items=0-1" 1000000 = none := by
  refine ⟨?_, ?_⟩ <;> decide


/-!
## Playlist track table (claim C7)

`src/src/playlist.rs`: the `playlist_tracks` table rows for one fixed
playlist, modelled as `(track_id, position)` pairs.  The
`PRIMARY KEY (playlist_id, track_id)` makes track ids unique; positions
are `i64` (modelled as `Int`, values stay tiny).
-/
/-- `ORDER BY position` (playlist.rs line 206).  SQLite returns the rows
sorted by position; under the table invariant the positions are distinct,
so any sort produces the same list. -/
def by_position (rows : List (String × Int)) : List (String × Int) :=
  rows.insertionSort (fun r1 r2 => r1.2 ≤ r2.2)

/-- `get_playlist_tracks` (playlist.rs lines 200-215): the track ids in
position order. -/
def get_playlist_tracks (rows : List (String × Int)) : List String :=
  (by_position rows).map Prod.fst

/-- `SELECT MAX(position) ... .unwrap_or(-1)` (playlist.rs lines 336-343). -/
def max_position (rows : List (String × Int)) : Int :=
  rows.foldl (fun m r => max m r.2) (-1)

/-- `add_track_to_playlist` (playlist.rs lines 319-371), table effect only:
`INSERT OR IGNORE` at position `max_position + 1`.  The OR IGNORE fires
exactly when `(playlist_id, track_id)` already exists. -/
def add_track_to_playlist (rows : List (String × Int)) (track_id : String) :
    List (String × Int) :=
  if rows.any (fun r => r.1 == track_id) then rows
  else rows ++ [(track_id, max_position rows + 1)]

/-- `remove_track_from_playlist` (playlist.rs lines 374-415), table effect:
DELETE the row; if a row was deleted, re-read the tracks in position order
and renumber them `0, 1, ...` (the `enumerate` loop at lines 390-400);
otherwise return `None`. -/
def remove_track_from_playlist (rows : List (String × Int)) (track_id : String) :
    Option (List (String × Int)) :=
  if rows.any (fun r => r.1 == track_id) then
    some (((by_position (rows.filter (fun r => !(r.1 == track_id)))).enum).map
      (fun p => (p.2.1, (p.1 : Int))))
  else none

/-- Table invariant maintained by the playlist operations: track ids are
unique (the PRIMARY KEY) and rows are stored in strictly increasing
position order. -/
def playlist_rows_inv (rows : List (String × Int)) : Prop :=
  (rows.map Prod.fst).Nodup ∧ rows.Pairwise (fun r1 r2 => r1.2 < r2.2)

instance (rows : List (String × Int)) : Decidable (playlist_rows_inv rows) :=
  inferInstanceAs (Decidable (_ ∧ _))

theorem by_position_eq_self {rows : List (String × Int)}
    (h : rows.Pairwise (fun r1 r2 => r1.2 < r2.2)) : by_position rows = rows :=
  List.Sorted.insertionSort_eq (h.imp le_of_lt)

theorem foldl_max_init_le (rows : List (String × Int)) (init : Int) :
    init ≤ rows.foldl (fun m r => max m r.2) init := by
  induction rows generalizing init with
  | nil => simp
  | cons a l ih => exact le_trans (le_max_left _ _) (ih (max init a.2))

theorem foldl_max_mem_le (rows : List (String × Int)) (init : Int) :
    ∀ r ∈ rows, r.2 ≤ rows.foldl (fun m r => max m r.2) init := by
  induction rows generalizing init with
  | nil => intro r hr; cases hr
  | cons a l ih =>
    intro r hr
    rcases List.mem_cons.mp hr with rfl | hr
    · exact le_trans (le_max_right _ _) (foldl_max_init_le l (max init r.2))
    · exact ih (max init a.2) r hr

theorem mem_le_max_position (rows : List (String × Int)) (r : String × Int)
    (hr : r ∈ rows) : r.2 ≤ max_position rows :=
  foldl_max_mem_le rows (-1) r hr

theorem enum_pairwise_fst {α : Type} (l : List α) :
    l.enum.Pairwise (fun p q => p.1 < q.1) := by
  have h1 : (l.enum.map Prod.fst).Pairwise (· < ·) := by
    rw [List.enum_map_fst]; exact List.pairwise_lt_range _
  rwa [List.pairwise_map] at h1

theorem any_fst_iff_mem (rows : List (String × Int)) (tid : String) :
    rows.any (fun r => r.1 == tid) = true ↔ tid ∈ rows.map Prod.fst := by
  rw [List.any_eq_true]
  constructor
  · rintro ⟨r, hr, hbeq⟩
    exact beq_iff_eq.mp hbeq ▸ List.mem_map_of_mem Prod.fst hr
  · intro hmem
    rcases List.mem_map.mp hmem with ⟨r, hr, hfst⟩
    exact ⟨r, hr, beq_iff_eq.mpr hfst⟩

theorem map_fst_filter_beq (rows : List (String × Int)) (tid : String) :
    (rows.filter (fun r => !(r.1 == tid))).map Prod.fst
      = (rows.map Prod.fst).filter (fun s => !(s == tid)) := by
  induction rows with
  | nil => rfl
  | cons a l ih =>
    by_cases h : a.1 = tid <;> simp [List.filter_cons, h, ih]

/-- C7: under the table invariant, the playlist's track list has no
duplicates; a successful removal leaves the remaining tracks, in their
previous relative order, at positions exactly 0, 1, ..., len-1 (and
removal fails exactly when the track is absent); adding an absent track
appends it at position max+1, and adding a present track is a no-op.
Both operations preserve the invariant. -/
theorem c7_playlist_invariants (rows : List (String × Int)) (tid : String)
    (hinv : playlist_rows_inv rows) :
    (get_playlist_tracks rows).Nodup
    ∧ (∀ rows', remove_track_from_playlist rows tid = some rows' →
        get_playlist_tracks rows' =
          (get_playlist_tracks rows).filter (fun s => !(s == tid))
        ∧ rows'.map Prod.snd = (List.range rows'.length).map Int.ofNat
        ∧ playlist_rows_inv rows')
    ∧ (remove_track_from_playlist rows tid = none ↔
        tid ∉ get_playlist_tracks rows)
    ∧ (if tid ∈ get_playlist_tracks rows
        then add_track_to_playlist rows tid = rows
        else add_track_to_playlist rows tid
              = rows ++ [(tid, max_position rows + 1)]
          ∧ playlist_rows_inv (add_track_to_playlist rows tid)) := by
  obtain ⟨hnd, hlt⟩ := hinv
  have htr : get_playlist_tracks rows = rows.map Prod.fst := by
    rw [get_playlist_tracks, by_position_eq_self hlt]
  refine ⟨htr ▸ hnd, ?_, ?_, ?_⟩
  · intro rows' hrem
    rw [remove_track_from_playlist] at hrem
    by_cases hany : rows.any (fun r => r.1 == tid) = true
    · rw [if_pos hany, Option.some.injEq] at hrem
      set remaining := rows.filter (fun r => !(r.1 == tid)) with hremdef
      have hremlt : remaining.Pairwise (fun r1 r2 => r1.2 < r2.2) :=
        hlt.filter _
      have hbp : by_position remaining = remaining := by_position_eq_self hremlt
      have hfst : rows'.map Prod.fst = remaining.map Prod.fst := by
        rw [← hrem, hbp, List.map_map]
        have : (Prod.fst ∘ fun p : Nat × String × Int => (p.2.1, (p.1 : Int)))
            = Prod.fst ∘ Prod.snd := rfl
        rw [this, ← List.map_map, List.enum_map_snd]
      have hremfst : remaining.map Prod.fst
          = (rows.map Prod.fst).filter (fun s => !(s == tid)) :=
        map_fst_filter_beq rows tid
      have hlt' : rows'.Pairwise (fun r1 r2 => r1.2 < r2.2) := by
        rw [← hrem, hbp, List.pairwise_map]
        refine (enum_pairwise_fst remaining).imp ?_
        intro a b h
        dsimp only
        exact_mod_cast h
      refine ⟨?_, ?_, ?_, hlt'⟩
      · rw [get_playlist_tracks, by_position_eq_self hlt', hfst, hremfst, htr]
      · rw [← hrem, List.map_map, List.length_map]
        have : (Prod.snd ∘ fun p : Nat × String × Int => (p.2.1, (p.1 : Int)))
            = Int.ofNat ∘ Prod.fst := rfl
        rw [this, ← List.map_map, List.enum_map_fst, List.enum_length]
      · rw [hfst, hremfst]
        exact hnd.filter _
    · rw [if_neg hany] at hrem
      cases hrem
  · rw [remove_track_from_playlist, htr]
    by_cases hany : rows.any (fun r => r.1 == tid) = true
    · rw [if_pos hany]
      simp [(any_fst_iff_mem rows tid).mp hany]
    · rw [if_neg hany]
      simp only [true_iff]
      intro hmem
      exact hany ((any_fst_iff_mem rows tid).mpr hmem)
  · rw [htr]
    by_cases hmem : tid ∈ rows.map Prod.fst
    · rw [if_pos hmem, add_track_to_playlist,
        if_pos ((any_fst_iff_mem rows tid).mpr hmem)]
    · have hany : ¬ rows.any (fun r => r.1 == tid) = true :=
        fun h => hmem ((any_fst_iff_mem rows tid).mp h)
      rw [if_neg hmem, add_track_to_playlist, if_neg hany]
      refine ⟨rfl, ?_, ?_⟩
      · rw [List.map_append]
        simp only [List.map_cons, List.map_nil]
        exact (List.nodup_append).mpr
          ⟨hnd, List.nodup_singleton _, by simpa using hmem⟩
      · rw [List.pairwise_append]
        refine ⟨hlt, List.pairwise_singleton _ _, ?_⟩
        intro a ha b hb
        rcases List.mem_singleton.mp hb with rfl
        have := mem_le_max_position rows a ha
        show a.2 < max_position rows + 1
        omega

/-- C7 witness: the concrete scenario from the spec — playlist [A,B,C,D]
at positions [0,1,2,3] satisfies the invariant and its track list has no
duplicates. -/
theorem c7_playlist_invariants_witness :
    playlist_rows_inv [("A", (0 : Int)), ("B", 1), ("C", 2), ("D", 3)]
    ∧ (get_playlist_tracks
        [("A", (0 : Int)), ("B", 1), ("C", 2), ("D", 3)]).Nodup :=
  ⟨by decide,
   (c7_playlist_invariants [("A", (0 : Int)), ("B", 1), ("C", 2), ("D", 3)]
     "B" (by decide)).1⟩

/-- Concrete check of the spec's example: removing B from [A,B,C,D]
renumbers the remaining rows to [(A,0),(C,1),(D,2)], i.e. tracks [A,C,D]
at positions [0,1,2]. -/
theorem remove_track_example :
    remove_track_from_playlist
        [("A", (0 : Int)), ("B", 1), ("C", 2), ("D", 3)] "B"
      = some [("A", 0), ("C", 1), ("D", 2)]
    ∧ get_playlist_tracks [("A", (0 : Int)), ("C", 1), ("D", 2)]
      = ["A", "C", "D"]
    ∧ add_track_to_playlist [("A", (0 : Int)), ("C", 1), ("D", 2)] "E"
      = [("A", 0), ("C", 1), ("D", 2), ("E", 3)] := by
  decide

/-!
## Library mutation facade (claim C8)
-/

instance {ε α : Type} [DecidableEq ε] [DecidableEq α] : DecidableEq (Except ε α) :=
  fun a b =>
    match a, b with
    | .error e1, .error e2 => decidable_of_iff (e1 = e2) (by simp)
    | .ok a1, .ok a2 => decidable_of_iff (a1 = a2) (by simp)
    | .error _, .ok _ => isFalse (by simp)
    | .ok _, .error _ => isFalse (by simp)

/-- The characters after the last occurrence of `sep`, `none` when `sep`
does not occur. -/
def after_last (sep : Char) : List Char → Option (List Char)
  | [] => none
  | c :: rest =>
    match after_last sep rest with
    | some e => some e
    | none => if c = sep then some rest else none

/-- Rust `Path::extension()`: the part of the file name after its last
dot, where a dot leading the file name does not count. -/
def path_extension (path : String) : Option String :=
  match (after_last '/' path.data).getD path.data with
  | [] => none
  | _ :: rest => (after_last '.' rest).map List.asString

/-- The tag state of one audio file on disk.  The mutation claims depend
only on control flow, not on the tag inventory, so the model carries
title/artist/album as representatives of the string tags written by
`write_flac_metadata` / `write_mp3_metadata` (library.rs lines 515-646)
and the front-cover picture written by `set_cover_art`; the remaining
tags behave identically. -/
structure FileTags where
  title : Option String
  artist : Option String
  album : Option String
  cover : Option (String × List Nat)
deriving DecidableEq

/-- The filesystem: an association list from path to tag state. -/
abbrev Disk := List (String × FileTags)

def disk_read (disk : Disk) (path : String) : Option FileTags :=
  (disk.find? (fun e => e.1 == path)).map Prod.snd

def disk_write (disk : Disk) (path : String) (tags : FileTags) : Disk :=
  disk.map (fun e => if e.1 == path then (path, tags) else e)

/-- An in-memory `Track` (library.rs lines 270-288), restricted to the
fields the claim is about plus the representative tags. -/
structure LibTrack where
  id : String
  path : String
  title : Option String
  artist : Option String
  album : Option String
  has_cover : Bool
  has_lyrics : Bool
deriving DecidableEq

/-- `TrackMetadataUpdate`: optional new values; `None` leaves a tag
unchanged. -/
structure TrackMetadataUpdate where
  title : Option String
  artist : Option String
  album : Option String
deriving DecidableEq

/-- `parse_audio_file` (library.rs lines 193-289) as it matters here:
fails when the file cannot be read, otherwise builds the track with
`id = md5(full path bytes)` (line 268) and `has_lyrics: false`
(line 286). -/
def parse_audio_file (disk : Disk) (path : String) : Except String LibTrack :=
  match disk_read disk path with
  | none => .error "Failed to parse file"
  | some tags => .ok {
      id := parse_audio_file_id path
      path := path
      title := tags.title
      artist := tags.artist
      album := tags.album
      has_cover := tags.cover.isSome
      has_lyrics := false }

/-- `set_vorbis` / `set_title` etc. guarded by `if let Some(...)`
(library.rs lines 519-548, 576-646): each tag is overwritten only when
the update supplies it. -/
def apply_metadata_update (tags : FileTags) (u : TrackMetadataUpdate) : FileTags :=
  { tags with
    title := match u.title with | some t => some t | none => tags.title
    artist := match u.artist with | some a => some a | none => tags.artist
    album := match u.album with | some a => some a | none => tags.album }

/-- `write_flac_metadata` (library.rs lines 515-560): read the existing
tags (error if the file is unreadable), apply the update, save. -/
def write_flac_metadata (disk : Disk) (path : String) (u : TrackMetadataUpdate) :
    Except String Disk :=
  match disk_read disk path with
  | none => .error "Failed to read FLAC tags"
  | some tags => .ok (disk_write disk path (apply_metadata_update tags u))

/-- `write_mp3_metadata` (library.rs lines 563-646): a failed tag read
falls back to an empty tag, but `write_to_path` still needs the audio
file, so a missing file is an error; otherwise the update is applied in
place. -/
def write_mp3_metadata (disk : Disk) (path : String) (u : TrackMetadataUpdate) :
    Except String Disk :=
  match disk_read disk path with
  | none => .error "Failed to save MP3 tags"
  | some tags => .ok (disk_write disk path (apply_metadata_update tags u))

/-- `write_audio_metadata` (library.rs lines 493-512): dispatch on the
file extension; no extension and unsupported formats are errors. -/
def write_audio_metadata (disk : Disk) (path : String) (u : TrackMetadataUpdate) :
    Except String Disk :=
  match path_extension path with
  | none => .error "No file extension"
  | some ext =>
    if ext = "flac" then write_flac_metadata disk path u
    else if ext = "mp3" then write_mp3_metadata disk path u
    else .error ("Unsupported file format: " ++ ext)

/-- The disk half of `set_cover_art` (library.rs lines 717-769): replace
the front-cover picture, dispatching on the extension like the metadata
writer (mp3's tag-read fallback at line 750 still needs the file for
`write_to_path`). -/
def write_cover_art (disk : Disk) (path : String) (img : List Nat) (mime : String) :
    Except String Disk :=
  match path_extension path with
  | none => .error "No file extension"
  | some ext =>
    if ext = "flac" then
      match disk_read disk path with
      | none => .error "Failed to read FLAC tags"
      | some tags => .ok (disk_write disk path { tags with cover := some (mime, img) })
    else if ext = "mp3" then
      match disk_read disk path with
      | none => .error "Failed to save MP3 tags with cover art"
      | some tags => .ok (disk_write disk path { tags with cover := some (mime, img) })
    else .error ("Unsupported file format: " ++ ext)

/-- Outcome of a library mutation: the returned `Result` plus the final
in-memory track list and disk. -/
structure MutOutcome (α : Type) where
  res : Except String α
  tracks : List LibTrack
  disk : Disk
deriving DecidableEq

/-- `tracks.iter().position(|t| t.id == id)` followed by
`tracks[pos] = updated` (library.rs lines 476-481, 780-785): replace the
first entry whose id matches; leave the list unchanged when none does. -/
def replace_track (id : String) (ut : LibTrack) : List LibTrack → List LibTrack
  | [] => []
  | t :: rest => if t.id == id then ut :: rest else t :: replace_track id ut rest

/-- `update_track_metadata` (library.rs lines 437-490): find the track
(error if absent, nothing touched); write the file (a `?` failure
propagates before any state change); re-parse; restore `has_lyrics` from
the pre-image (line 473); replace the in-memory entry. -/
def update_track_metadata (tracks : List LibTrack) (disk : Disk) (id : String)
    (u : TrackMetadataUpdate) : MutOutcome LibTrack :=
  match tracks.find? (fun t => t.id == id) with
  | none => ⟨.error ("Track not found: " ++ id), tracks, disk⟩
  | some track =>
    match write_audio_metadata disk track.path u with
    | .error e => ⟨.error e, tracks, disk⟩
    | .ok disk' =>
      match parse_audio_file disk' track.path with
      | .error e => ⟨.error e, tracks, disk'⟩
      | .ok ut0 =>
        let ut := { ut0 with has_lyrics := track.has_lyrics }
        ⟨.ok ut, replace_track id ut tracks, disk'⟩

/-- `set_cover_art` (library.rs lines 699-790): same skeleton as
`update_track_metadata` with the cover writer and a `()` result
(`has_lyrics` restored at line 778). -/
def set_cover_art (tracks : List LibTrack) (disk : Disk) (id : String)
    (img : List Nat) (mime : String) : MutOutcome Unit :=
  match tracks.find? (fun t => t.id == id) with
  | none => ⟨.error "Track not found", tracks, disk⟩
  | some track =>
    match write_cover_art disk track.path img mime with
    | .error e => ⟨.error e, tracks, disk⟩
    | .ok disk' =>
      match parse_audio_file disk' track.path with
      | .error e => ⟨.error e, tracks, disk'⟩
      | .ok ut0 =>
        let ut := { ut0 with has_lyrics := track.has_lyrics }
        ⟨.ok (), replace_track id ut tracks, disk'⟩

theorem disk_read_write_self (disk : Disk) (path : String) (tags : FileTags)
    (h : (disk_read disk path).isSome) :
    disk_read (disk_write disk path tags) path = some tags := by
  induction disk with
  | nil => simp [disk_read] at h
  | cons e l ih =>
    by_cases he : e.1 = path
    · have hw : disk_write (e :: l) path tags = (path, tags) :: disk_write l path tags := by
        simp [disk_write, he]
      rw [hw, disk_read, List.find?_cons_of_pos _ (by simp)]
      rfl
    · have hw : disk_write (e :: l) path tags = e :: disk_write l path tags := by
        simp [disk_write, he]
      rw [hw, disk_read, List.find?_cons_of_neg _ (by simp [he])]
      rw [disk_read, List.find?_cons_of_neg _ (by simp [he])] at h
      exact ih h

theorem write_flac_metadata_ok {disk : Disk} {path : String}
    {u : TrackMetadataUpdate} {disk' : Disk}
    (h : write_flac_metadata disk path u = .ok disk') :
    ∃ tags', disk' = disk_write disk path tags' ∧ (disk_read disk path).isSome := by
  unfold write_flac_metadata at h
  split at h
  · cases h
  · next tags hr =>
      exact ⟨apply_metadata_update tags u, ((Except.ok.injEq _ _).mp h).symm,
        by rw [hr]; rfl⟩

theorem write_mp3_metadata_ok {disk : Disk} {path : String}
    {u : TrackMetadataUpdate} {disk' : Disk}
    (h : write_mp3_metadata disk path u = .ok disk') :
    ∃ tags', disk' = disk_write disk path tags' ∧ (disk_read disk path).isSome := by
  unfold write_mp3_metadata at h
  split at h
  · cases h
  · next tags hr =>
      exact ⟨apply_metadata_update tags u, ((Except.ok.injEq _ _).mp h).symm,
        by rw [hr]; rfl⟩

theorem write_audio_metadata_ok {disk : Disk} {path : String}
    {u : TrackMetadataUpdate} {disk' : Disk}
    (h : write_audio_metadata disk path u = .ok disk') :
    ∃ tags', disk' = disk_write disk path tags' ∧ (disk_read disk path).isSome := by
  unfold write_audio_metadata at h
  split at h
  · cases h
  · split_ifs at h with hf hm
    · exact write_flac_metadata_ok h
    · exact write_mp3_metadata_ok h

theorem write_cover_art_ok {disk : Disk} {path : String}
    {img : List Nat} {mime : String} {disk' : Disk}
    (h : write_cover_art disk path img mime = .ok disk') :
    ∃ tags', disk' = disk_write disk path tags' ∧ (disk_read disk path).isSome := by
  unfold write_cover_art at h
  split at h
  · cases h
  · split_ifs at h with hf hm
    · split at h
      · cases h
      · next tags hr =>
          exact ⟨_, ((Except.ok.injEq _ _).mp h).symm, by rw [hr]; rfl⟩
    · split at h
      · cases h
      · next tags hr =>
          exact ⟨_, ((Except.ok.injEq _ _).mp h).symm, by rw [hr]; rfl⟩

theorem find?_replace_track (tracks : List LibTrack) (id : String)
    (track ut : LibTrack)
    (h : tracks.find? (fun t => t.id == id) = some track)
    (hut : (ut.id == id) = true) :
    (replace_track id ut tracks).find? (fun t => t.id == id) = some ut := by
  induction tracks with
  | nil => cases h
  | cons a l ih =>
    by_cases ha : (a.id == id) = true
    · rw [replace_track, if_pos ha]
      exact List.find?_cons_of_pos _ hut
    · rw [replace_track, if_neg ha]
      have ha' : (a.id == id) = false := Bool.eq_false_iff.mpr ha
      simp only [List.find?_cons, ha', cond_false] at h ⊢
      exact ih h

/-- C8: library mutations preserve the track id and the `has_lyrics`
flag, and are atomic on write failure. -/
theorem c8_mutation_id_lyrics_atomic
    (tracks : List LibTrack) (disk : Disk) (id : String)
    (u : TrackMetadataUpdate) (img : List Nat) (mime : String)
    (hwf : ∀ t ∈ tracks, t.id = parse_audio_file_id t.path) :
    (tracks.find? (fun t => t.id == id) = none →
       update_track_metadata tracks disk id u
         = ⟨.error ("Track not found: " ++ id), tracks, disk⟩
       ∧ set_cover_art tracks disk id img mime
         = ⟨.error "Track not found", tracks, disk⟩)
    ∧ ∀ track, tracks.find? (fun t => t.id == id) = some track →
        (∀ ut, (update_track_metadata tracks disk id u).res = .ok ut →
           ut.id = track.id ∧ ut.has_lyrics = track.has_lyrics ∧
           (update_track_metadata tracks disk id u).tracks.find?
             (fun t => t.id == id) = some ut ∧
           parse_audio_file (update_track_metadata tracks disk id u).disk
             track.path = .ok { ut with has_lyrics := false })
        ∧ (∀ e, write_audio_metadata disk track.path u = .error e →
            update_track_metadata tracks disk id u = ⟨.error e, tracks, disk⟩)
        ∧ ((set_cover_art tracks disk id img mime).res = .ok () →
            ∃ ut, (set_cover_art tracks disk id img mime).tracks.find?
                (fun t => t.id == id) = some ut
              ∧ ut.id = track.id ∧ ut.has_lyrics = track.has_lyrics)
        ∧ (∀ e, write_cover_art disk track.path img mime = .error e →
            set_cover_art tracks disk id img mime = ⟨.error e, tracks, disk⟩) := by
  constructor
  · intro hnone
    constructor
    · simp [update_track_metadata, hnone]
    · simp [set_cover_art, hnone]
  intro track hfound
  have hid : track.id = parse_audio_file_id track.path :=
    hwf track (List.mem_of_find?_eq_some hfound)
  have hpt : (track.id == id) = true := by
    simpa using List.find?_some hfound
  refine ⟨?_, ?_, ?_, ?_⟩
  · intro ut hok
    cases hw : write_audio_metadata disk track.path u with
    | error e => simp [update_track_metadata, hfound, hw] at hok
    | ok disk' =>
      obtain ⟨tags', hd', hsome⟩ := write_audio_metadata_ok hw
      have hread' : disk_read disk' track.path = some tags' := by
        rw [hd']; exact disk_read_write_self disk track.path tags' hsome
      have hparse : parse_audio_file disk' track.path = .ok {
          id := parse_audio_file_id track.path
          path := track.path
          title := tags'.title
          artist := tags'.artist
          album := tags'.album
          has_cover := tags'.cover.isSome
          has_lyrics := false } := by
        unfold parse_audio_file
        rw [hread']
      simp only [update_track_metadata, hfound, hw, hparse, Except.ok.injEq] at hok
      subst hok
      refine ⟨hid.symm, rfl, ?_, ?_⟩
      · simp only [update_track_metadata, hfound, hw, hparse]
        exact find?_replace_track tracks id track _ hfound
          (by change (parse_audio_file_id track.path == id) = true
              rw [← hid]; exact hpt)
      · simp only [update_track_metadata, hfound, hw, hparse]
  · intro e he
    simp [update_track_metadata, hfound, he]
  · intro hok
    cases hw : write_cover_art disk track.path img mime with
    | error e => simp [set_cover_art, hfound, hw] at hok
    | ok disk' =>
      obtain ⟨tags', hd', hsome⟩ := write_cover_art_ok hw
      have hread' : disk_read disk' track.path = some tags' := by
        rw [hd']; exact disk_read_write_self disk track.path tags' hsome
      have hparse : parse_audio_file disk' track.path = .ok {
          id := parse_audio_file_id track.path
          path := track.path
          title := tags'.title
          artist := tags'.artist
          album := tags'.album
          has_cover := tags'.cover.isSome
          has_lyrics := false } := by
        unfold parse_audio_file
        rw [hread']
      refine Exists.intro
        { id := parse_audio_file_id track.path
          path := track.path
          title := tags'.title
          artist := tags'.artist
          album := tags'.album
          has_cover := tags'.cover.isSome
          has_lyrics := track.has_lyrics }
        ⟨?_, hid.symm, rfl⟩
      simp only [set_cover_art, hfound, hw, hparse]
      exact find?_replace_track tracks id track _ hfound
        (by change (parse_audio_file_id track.path == id) = true
            rw [← hid]; exact hpt)
  · intro e he
    simp [set_cover_art, hfound, he]

def c8_track0 : LibTrack :=
  { id := parse_audio_file_id "/music/a.flac"
    path := "/music/a.flac"
    title := some "Old"
    artist := none
    album := none
    has_cover := false
    has_lyrics := true }

/-- C8 witness: on a one-track library whose file is missing from disk,
the metadata write fails and `update_track_metadata` surfaces the error
leaving both the track list and the disk untouched. -/
theorem c8_mutation_id_lyrics_atomic_witness :
    (∀ t ∈ [c8_track0], t.id = parse_audio_file_id t.path)
    ∧ update_track_metadata [c8_track0] [] c8_track0.id
        { title := some "New", artist := none, album := none }
      = ⟨.error "Failed to read FLAC tags", [c8_track0], []⟩ :=
  ⟨by decide,
   (((c8_mutation_id_lyrics_atomic [c8_track0] [] c8_track0.id
        { title := some "New", artist := none, album := none } [1] "image/png"
        (by decide)).2 c8_track0 (by decide)).2.1
      "Failed to read FLAC tags" (by decide))⟩

/-- Spot check of the success path: with the file on disk, the metadata
update succeeds, the id is unchanged, `has_lyrics` survives, and the new
title is visible both in memory and on disk. -/
theorem update_track_metadata_example :
    update_track_metadata [c8_track0]
        [("/music/a.flac",
          { title := some "Old", artist := none, album := none, cover := none })]
        c8_track0.id { title := some "New", artist := none, album := none }
      = ⟨.ok { c8_track0 with title := some "New" },
         [{ c8_track0 with title := some "New" }],
         [("/music/a.flac",
           { title := some "New", artist := none, album := none, cover := none })]⟩ := by
  decide

/-!
## Provider confidence scores (claim C9)
-/

def bitlenAux : Nat → Nat → Nat
  | 0, _ => 0
  | fuel + 1, n => if n = 0 then 0 else bitlenAux fuel (n / 2) + 1

/-- Number of binary digits of `n` (0 for 0). -/
def bitlen (n : Nat) : Nat := bitlenAux n n

/-- Round the rational `p / q` to the nearest integer, ties to even
(the IEEE 754 default rounding). -/
def rhe (p q : Nat) : Nat :=
  let d := p / q
  let r := p % q
  if 2 * r < q then d
  else if q < 2 * r then d + 1
  else if d % 2 = 0 then d else d + 1

/-- An `f32` value represented exactly as the dyadic rational
`m / 2 ^ e`.  The representation is not canonical; value equality is
`f32val_eq`. -/
structure F32 where
  m : Int
  e : Nat
deriving DecidableEq

/-- Round the dyadic `n / 2 ^ e` (with `n : Nat`) to 24 significant
bits, ties to even — the binary32 result for the magnitudes used here
(normal range, no overflow). -/
def f32roundNat (n e : Nat) : F32 :=
  let L := bitlen n
  if L ≤ 24 then ⟨n, e⟩
  else
    let k := L - 24
    let s := rhe n (2 ^ k)
    if k ≤ e then ⟨s, e - k⟩ else ⟨s * 2 ^ (k - e), 0⟩

/-- The `f32` nearest to the decimal literal `num / den` (for positive
values below `2 ^ 24`): scale into `[2 ^ 23, 2 ^ 24)` and round once. -/
def f32lit (num den : Nat) : F32 :=
  match (List.range 64).find? (fun e => 2 ^ 23 ≤ num * 2 ^ e / den) with
  | some e => ⟨rhe (num * 2 ^ e) den, e⟩
  | none => ⟨0, 0⟩

/-- IEEE binary32 addition: the exact dyadic sum, rounded once. -/
def f32add (a b : F32) : F32 :=
  let e := max a.e b.e
  let m := a.m * 2 ^ (e - a.e) + b.m * 2 ^ (e - b.e)
  if m < 0 then
    let d := f32roundNat m.natAbs e
    ⟨-d.m, d.e⟩
  else f32roundNat m.natAbs e

def f32le (a b : F32) : Bool := decide (a.m * 2 ^ b.e ≤ b.m * 2 ^ a.e)

/-- Rust `f32::min` on the (non-NaN) values used here. -/
def f32min (a b : F32) : F32 := if f32le a b then a else b

/-- Value equality of two dyadic `f32` representations. -/
def f32val_eq (a b : F32) : Prop := a.m * 2 ^ b.e = b.m * 2 ^ a.e

instance (a b : F32) : Decidable (f32val_eq a b) :=
  inferInstanceAs (Decidable (a.m * 2 ^ b.e = b.m * 2 ^ a.e))

/-- `song.title.to_lowercase().contains(&query.title.to_lowercase())`
(music_search_provider.rs lines 66-70 and 207-211). -/
def title_match (result_title query_title : String) : Bool :=
  str_contains (rust_to_lowercase result_title) (rust_to_lowercase query_title)

/-- The artist loop (music_search_provider.rs lines 75-82 and 216-223):
with a query artist, scan the result artists and stop at the first
lower-cased containment match. -/
def artist_match (authors : List String) (query_artist : Option String) : Bool :=
  match query_artist with
  | none => false
  | some qa => authors.any (fun a => str_contains (rust_to_lowercase a) (rust_to_lowercase qa))

/-- Confidence scoring shared verbatim by the NetEase and QQ Music
providers (music_search_provider.rs lines 62-91 and 203-231): base
`0.5f32`, `+= 0.3` on title match, `+= 0.2` on artist match, then
`.min(1.0_f32)` — all in `f32` arithmetic. -/
def search_confidence (result_title : String) (authors : List String)
    (query_title : String) (query_artist : Option String) : F32 :=
  let confidence := f32lit 1 2
  let confidence := if title_match result_title query_title
    then f32add confidence (f32lit 3 10) else confidence
  let confidence := if artist_match authors query_artist
    then f32add confidence (f32lit 2 10) else confidence
  f32min confidence (f32lit 1 1)

/-- The exact dyadic values behind the four reachable scores, matching
binary32: `0.5`, `0.3f32 = 10066330 / 2^25`, `0.2f32 = 13421773 / 2^26`,
`0.5f+0.3f = 0.8f32 = 13421773 / 2^24`, `0.5f+0.2f = 0.7f32 =
11744051 / 2^24`, and `(0.5f+0.3f)+0.2f = 1.0` exactly. -/
theorem confidence_values_exact :
    f32lit 1 2 = ⟨8388608, 24⟩ ∧ f32lit 3 10 = ⟨10066330, 25⟩
    ∧ f32lit 2 10 = ⟨13421773, 26⟩ ∧ f32lit 1 1 = ⟨8388608, 23⟩
    ∧ f32add (f32lit 1 2) (f32lit 3 10) = ⟨13421773, 24⟩
    ∧ f32val_eq (f32add (f32lit 1 2) (f32lit 3 10)) (f32lit 4 5)
    ∧ f32add (f32lit 1 2) (f32lit 2 10) = ⟨11744051, 24⟩
    ∧ f32val_eq (f32add (f32lit 1 2) (f32lit 2 10)) (f32lit 7 10)
    ∧ f32add (f32add (f32lit 1 2) (f32lit 3 10)) (f32lit 2 10) = ⟨8388608, 23⟩ := by
  decide

/-- C9: every provider confidence equals 0.5, plus 0.3 on a lower-cased
title containment match, plus 0.2 on a lower-cased artist containment
match, clamped to at most 1 — so (in exact `f32` arithmetic) it is
`1.0`, `0.8f32`, `0.7f32` or `0.5`, and always lies in `[0, 1]`. -/
theorem c9_confidence_score (title : String) (authors : List String)
    (query_title : String) (query_artist : Option String) :
    f32val_eq (search_confidence title authors query_title query_artist)
      (if title_match title query_title then
         if artist_match authors query_artist then f32lit 1 1 else f32lit 4 5
       else
         if artist_match authors query_artist then f32lit 7 10 else f32lit 1 2)
    ∧ 0 ≤ (search_confidence title authors query_title query_artist).m
    ∧ (search_confidence title authors query_title query_artist).m
        ≤ 2 ^ (search_confidence title authors query_title query_artist).e := by
  cases h1 : title_match title query_title <;>
    cases h2 : artist_match authors query_artist <;>
      simp only [search_confidence, h1, h2] <;> decide

/-- Spot check: matching title and artist yields exactly 1.0, and no
match at all yields exactly 0.5. -/
theorem search_confidence_example :
    search_confidence "Norwegian Wood" ["The Beatles"] "wood" (some "beatles")
      = ⟨8388608, 23⟩
    ∧ search_confidence "Norwegian Wood" ["The Beatles"] "help" (some "queen")
      = ⟨8388608, 24⟩ := by
  decide
